import Mathlib

/-!
Verification development for the file-storage module `cmk/utils/store.py`
(Checkmk's locked file opening and atomic persistence layer).

The Python module is shallowly embedded:

* file contents are byte lists (`Bytes`);
* the per-thread lock registry `_locks.acquired_locks` (a dict mapping a
  path name to an open file descriptor) is an association list `LockDict`;
* the shared operating-system state visible to the module (the filesystem,
  file modes, which thread's descriptor currently holds the `flock` on each
  path, the next fresh descriptor number, and a counter of `fcntl.flock`
  invocations) is a structure `Env`;
* Python exceptions are the inductive `Exc`; operations return their result
  together with the final registry and environment so that state after a
  raised exception remains observable;
* points where the environment may raise (a signal arriving at `flock`, an
  I/O error during `chmod`/`write`/`rename`, ...) are modelled by explicit
  failure-injection parameters.
-/

/-- Byte strings (`bytes` in Python) as lists of byte values. -/
abbrev Bytes := List Nat

/-- The per-thread lock registry `_locks.acquired_locks : Dict[str, int]`
mapping a path name to the open file descriptor holding the lock. -/
abbrev LockDict := List (String × Nat)

/-- Association-list lookup, the model of Python dict read `d.get(k)`. -/
def getA {α : Type} : List (String × α) → String → Option α
  | [], _ => none
  | (k, v) :: rest, key => if k = key then some v else getA rest key

/-- Remove every binding of `key`, the model of Python dict `d.pop(k, None)`
(dict keys are unique, so with unique keys this removes the one binding). -/
def eraseA {α : Type} (key : String) : List (String × α) → List (String × α)
  | [] => []
  | (k, v) :: rest => if k = key then eraseA key rest else (k, v) :: eraseA key rest

/-- Dict-style update `d[k] = v`: the new binding shadows (and here replaces)
any previous binding of `k`. -/
def setA {α : Type} (key : String) (v : α) (l : List (String × α)) : List (String × α) :=
  (key, v) :: eraseA key l

@[simp] theorem getA_nil {α : Type} (key : String) : getA ([] : List (String × α)) key = none := rfl

@[simp] theorem getA_cons {α : Type} (k key : String) (v : α) (rest : List (String × α)) :
    getA ((k, v) :: rest) key = if k = key then some v else getA rest key := rfl

@[simp] theorem getA_eraseA_self {α : Type} (key : String) (l : List (String × α)) :
    getA (eraseA key l) key = none := by
  induction l with
  | nil => rfl
  | cons p rest ih =>
      obtain ⟨k, v⟩ := p
      by_cases h : k = key
      · simp [eraseA, h, ih]
      · simp [eraseA, h, ih]

@[simp] theorem getA_eraseA_ne {α : Type} (key key' : String) (l : List (String × α))
    (h : key' ≠ key) : getA (eraseA key l) key' = getA l key' := by
  induction l with
  | nil => rfl
  | cons p rest ih =>
      obtain ⟨k, v⟩ := p
      by_cases hk : k = key
      · subst hk
        simp [eraseA, Ne.symm h, ih]
      · by_cases hk' : k = key'
        · simp [eraseA, hk, hk', h]
        · simp [eraseA, hk, hk', ih]

@[simp] theorem getA_setA_self {α : Type} (key : String) (v : α) (l : List (String × α)) :
    getA (setA key v l) key = some v := by
  simp [setA]

@[simp] theorem getA_setA_ne {α : Type} (key key' : String) (v : α) (l : List (String × α))
    (h : key' ≠ key) : getA (setA key v l) key' = getA l key' := by
  simp [setA, Ne.symm h, h]

/-- Python exceptions that the module raises or lets pass through. -/
inductive Exc
  /-- `MKTerminate`: a termination request; always rethrown unmodified. -/
  | mkTerminate
  /-- `MKTimeout`: a timeout signal; always rethrown unmodified. -/
  | mkTimeout
  /-- `MKGeneralException`: the module's wrapper for unexpected failures. -/
  | mkGeneral
  /-- `IOError` with `errno == EAGAIN`: a non-blocking `flock` found the lock held. -/
  | ioEagain
  /-- any other `IOError`/`OSError` from an OS primitive. -/
  | ioGeneric
  /-- model artefact: a blocking `flock` on a lock held by another thread never
  returns; the model materialises this as a distinguished outcome. -/
  | blocksForever
  /-- `TypeError`: wrong argument type rejected before any I/O. -/
  | typeError
  /-- `UnicodeDecodeError`: `bytes.decode("utf-8")` failed. -/
  | decodeError
  /-- `ValueError` (and friends) from `ast.literal_eval` on malformed content. -/
  | valueError
  /-- `KeyError`: dict subscript on a missing key. -/
  | keyError
deriving Repr, DecidableEq

/-- Kinds of injected environment failure at an OS primitive: an ordinary
exception, a termination request, or a timeout signal. -/
inductive ExcKind
  | generic
  | terminate
  | timeout
deriving Repr, DecidableEq

/-- The exception corresponding to an injected failure kind (an ordinary
failure at an OS call surfaces as an `IOError`). -/
def excOf : ExcKind → Exc
  | .generic => .ioGeneric
  | .terminate => .mkTerminate
  | .timeout => .mkTimeout

/-- Shared operating-system state visible to the module. -/
structure Env where
  /-- filesystem: path name to byte content of the regular file there. -/
  files : List (String × Bytes)
  /-- permission bits: path name to mode of the file there. -/
  modes : List (String × Nat)
  /-- OS `flock` table: path name to the id of the thread whose open
  descriptor currently holds the exclusive lock on that file. -/
  osLock : List (String × Nat)
  /-- next fresh file-descriptor number handed out by `os.open`. -/
  nextFd : Nat
  /-- how many times `fcntl.flock` has been invoked (attempts included). -/
  flockCalls : Nat
deriving Repr, DecidableEq

/-- `os.open(path, O_RDONLY | O_CREAT, 0o660)` creates the file empty (and
with the given mode) when it does not exist yet; an existing file is
untouched. -/
def createIfAbsent (path : String) (mode : Nat) (env : Env) : Env :=
  match getA env.files path with
  | some _ => env
  | none => { env with files := (path, ([] : Bytes)) :: env.files,
                       modes := (path, mode) :: env.modes }

/-- `have_lock(path)`: does the calling thread's registry record `path`? -/
def have_lock (reg : LockDict) (path : String) : Bool :=
  (getA reg path).isSome

/-- Result of `aquire_lock`: the outcome plus the final registry and
environment (also meaningful when an exception was raised). -/
structure AcqRes where
  result : Except Exc Unit
  reg : LockDict
  env : Env
deriving Repr

/-- `aquire_lock(path, blocking)` for thread `t`.

Mirrors the source: return immediately when the registry already records the
path (no recursive locking; no OS call at all); otherwise create the lock
file if missing via `os.open(..., O_CREAT, 0o660)`, call `fcntl.flock` and,
on success, re-open the path and keep the descriptor when
`os.path.sameopenfile` confirms it still names the same file (no concurrent
renamer is modelled, so the check succeeds and the loop runs once), then
record the descriptor in the registry.

`ev` injects an exception raised by `fcntl.flock` itself (e.g. a timeout
signal); the source closes `fd` and re-raises.  A non-blocking attempt on a
lock held elsewhere raises `IOError(EAGAIN)` after closing `fd`; a blocking
attempt on such a lock never returns, modelled as `Exc.blocksForever`. -/
def aquire_lock (t : Nat) (path : String) (blocking : Bool) (ev : Option ExcKind)
    (reg : LockDict) (env : Env) : AcqRes :=
  if have_lock reg path then ⟨.ok (), reg, env⟩
  else
    let fd := env.nextFd
    let env1 := { createIfAbsent path 0o660 env with nextFd := env.nextFd + 1 }
    let env2 := { env1 with flockCalls := env1.flockCalls + 1 }
    match ev with
    | some k => ⟨.error (excOf k), reg, env2⟩
    | none =>
        match getA env2.osLock path with
        | some _ =>
            if blocking then ⟨.error .blocksForever, reg, env2⟩
            else ⟨.error .ioEagain, reg, env2⟩
        | none =>
            let env3 := { env2 with osLock := (path, t) :: env2.osLock,
                                    nextFd := env2.nextFd + 1 }
            ⟨.ok (), setA path fd reg, env3⟩

/-- Closing thread `t`'s locked descriptor for `path` drops exactly the
`flock` entries this thread held on that path; locks held by other threads
(through their own descriptors) are untouched. -/
def eraseOsEntry (path : String) (t : Nat) : List (String × Nat) → List (String × Nat)
  | [] => []
  | (p, u) :: rest =>
      if p = path ∧ u = t then eraseOsEntry path t rest
      else (p, u) :: eraseOsEntry path t rest

/-- `release_lock(path)` for thread `t`: no-op when the registry does not
record the path; otherwise close the recorded descriptor — which drops the
OS `flock` this thread held through it — and delete the registry entry
(`EBADF` on close is absorbed). -/
def release_lock (t : Nat) (path : String) (reg : LockDict) (env : Env) :
    LockDict × Env :=
  if have_lock reg path then
    match getA reg path with
    | none => (reg, env)
    | some _fd =>
        (eraseA path reg, { env with osLock := eraseOsEntry path t env.osLock })
  else (reg, env)

/-- Result of `try_aquire_lock`: the boolean outcome (or a propagated
exception) plus final registry and environment. -/
structure TryRes where
  result : Except Exc Bool
  reg : LockDict
  env : Env
deriving Repr

/-- `try_aquire_lock(path)`: non-blocking acquisition returning `True` on
success; `IOError(EAGAIN)` is converted to `False`; any other exception is
re-raised. -/
def try_aquire_lock (t : Nat) (path : String) (ev : Option ExcKind)
    (reg : LockDict) (env : Env) : TryRes :=
  let a := aquire_lock t path false ev reg env
  match a.result with
  | .ok () => ⟨.ok true, a.reg, a.env⟩
  | .error .ioEagain => ⟨.ok false, a.reg, a.env⟩
  | .error e => ⟨.error e, a.reg, a.env⟩

/-- Registry keys are unique: at most one descriptor per (thread, path). -/
def KeysNodup {α : Type} (l : List (String × α)) : Prop :=
  (l.map Prod.fst).Nodup

/-- The temporary sibling file used by the atomic writer:
`tempfile.NamedTemporaryFile(dir=path.parent, prefix=".%s.new" % path.name)`.
A single writer is modelled, so the random suffix is fixed to `"0"`. -/
def tmpName (path : String) : String := "." ++ path ++ ".new0"

/-- UTF-8 encoding of one character (`str.encode("utf-8")`, per code point). -/
def utf8EncodeChar (c : Char) : Bytes :=
  let n := c.toNat
  if n < 0x80 then [n]
  else if n < 0x800 then [0xC0 + n / 0x40, 0x80 + n % 0x40]
  else if n < 0x10000 then [0xE0 + n / 0x1000, 0x80 + n / 0x40 % 0x40, 0x80 + n % 0x40]
  else [0xF0 + n / 0x40000, 0x80 + n / 0x1000 % 0x40, 0x80 + n / 0x40 % 0x40, 0x80 + n % 0x40]

/-- `str.encode("utf-8")` over a whole string. -/
def encodeUtf8 (s : List Char) : Bytes := (s.map utf8EncodeChar).flatten

@[simp] theorem encodeUtf8_nil : encodeUtf8 [] = [] := rfl

@[simp] theorem encodeUtf8_cons (c : Char) (cs : List Char) :
    encodeUtf8 (c :: cs) = utf8EncodeChar c ++ encodeUtf8 cs := by
  simp [encodeUtf8]

/-- Validating UTF-8 decoding (`bytes.decode("utf-8")`); `none` models the
`UnicodeDecodeError` raised on malformed input.  Structured with explicit
fuel (one unit per decoded character); `decodeUtf8` supplies the input
length, which suffices because every character consumes at least one byte. -/
def decodeUtf8Aux : Nat → Bytes → Option (List Char)
  | _, [] => some []
  | 0, _ :: _ => none
  | fuel + 1, b1 :: rest =>
    if b1 < 0x80 then (decodeUtf8Aux fuel rest).map (fun cs => Char.ofNat b1 :: cs)
    else if 0xC0 ≤ b1 ∧ b1 < 0xE0 then
      match rest with
      | [] => none
      | b2 :: rest2 =>
        if 0x80 ≤ b2 ∧ b2 < 0xC0 then
          let n := (b1 - 0xC0) * 0x40 + (b2 - 0x80)
          if 0x80 ≤ n then (decodeUtf8Aux fuel rest2).map (fun cs => Char.ofNat n :: cs)
          else none
        else none
    else if 0xE0 ≤ b1 ∧ b1 < 0xF0 then
      match rest with
      | b2 :: b3 :: rest3 =>
        if (0x80 ≤ b2 ∧ b2 < 0xC0) ∧ (0x80 ≤ b3 ∧ b3 < 0xC0) then
          let n := (b1 - 0xE0) * 0x1000 + (b2 - 0x80) * 0x40 + (b3 - 0x80)
          if 0x800 ≤ n ∧ ¬(0xD800 ≤ n ∧ n < 0xE000) then
            (decodeUtf8Aux fuel rest3).map (fun cs => Char.ofNat n :: cs)
          else none
        else none
      | _ => none
    else if 0xF0 ≤ b1 ∧ b1 < 0xF8 then
      match rest with
      | b2 :: b3 :: b4 :: rest4 =>
        if (0x80 ≤ b2 ∧ b2 < 0xC0) ∧ (0x80 ≤ b3 ∧ b3 < 0xC0) ∧ (0x80 ≤ b4 ∧ b4 < 0xC0) then
          let n := (b1 - 0xF0) * 0x40000 + (b2 - 0x80) * 0x1000 + (b3 - 0x80) * 0x40
                     + (b4 - 0x80)
          if 0x10000 ≤ n ∧ n < 0x110000 then
            (decodeUtf8Aux fuel rest4).map (fun cs => Char.ofNat n :: cs)
          else none
        else none
      | _ => none
    else none

/-- `bytes.decode("utf-8")`. -/
def decodeUtf8 (bs : Bytes) : Option (List Char) := decodeUtf8Aux bs.length bs

/-- Where the environment makes `_save_data_to_file` fail, when anywhere. -/
inductive FailPt
  /-- during `aquire_lock` (e.g. a timeout signal while blocking on `flock`). -/
  | atLock
  /-- `tempfile.NamedTemporaryFile` itself fails; `tmp_path` is still `None`. -/
  | atTempCreate
  /-- during `os.chmod(tmp_path, mode)`. -/
  | atChmod
  /-- during `tmp.write(content)`. -/
  | atWrite
  /-- during `os.rename(tmp_path, str(path))`, before it takes effect. -/
  | atRename
deriving Repr, DecidableEq

/-- Failure injection for one run of `_save_data_to_file`: no failure, or one
failure point together with the kind of exception raised there. -/
abbrev FailSpec := Option (FailPt × ExcKind)

/-- Result of `_save_data_to_file`: outcome, final registry and environment,
and the trace of environment snapshots the execution passed through (the
initial one included). -/
structure SaveRes where
  result : Except Exc Unit
  reg : LockDict
  env : Env
  trace : List Env
deriving Repr

/-- How an exception escaping the `try` body surfaces when `tmp_path` is
still `None`: `MKTerminate`/`MKTimeout` are rethrown unmodified by the first
`except` clause, everything else is wrapped into `MKGeneralException` by the
second (no temporary file exists, so its cleanup loop does nothing). -/
def outerExc : Exc → Exc
  | .mkTerminate => .mkTerminate
  | .mkTimeout => .mkTimeout
  | .blocksForever => .blocksForever
  | _ => .mkGeneral

/-- The `except`/`finally` tail of `_save_data_to_file` for an exception of
kind `k` raised after the temporary file was created: `MKTerminate` and
`MKTimeout` are rethrown unmodified — without unlinking the temporary file —
while any other exception first unlinks the temporary file (ignoring
"already gone") and surfaces as `MKGeneralException`; the `finally` block
releases the lock in every case. -/
def exceptCleanup (t : Nat) (path : String) (k : ExcKind) (reg : LockDict) (env : Env)
    (tracePrefix : List Env) : SaveRes :=
  match k with
  | .terminate =>
      let r := release_lock t path reg env
      ⟨.error .mkTerminate, r.1, r.2, tracePrefix ++ [r.2]⟩
  | .timeout =>
      let r := release_lock t path reg env
      ⟨.error .mkTimeout, r.1, r.2, tracePrefix ++ [r.2]⟩
  | .generic =>
      let env1 := { env with files := eraseA (tmpName path) env.files,
                             modes := eraseA (tmpName path) env.modes }
      let r := release_lock t path reg env1
      ⟨.error .mkGeneral, r.1, r.2, tracePrefix ++ [env1, r.2]⟩

/-- `_save_data_to_file(path, content, mode)` run by thread `t` under failure
injection `fail`.

Mirrors the source: acquire the lock on `path` (which already creates the
file with 0 bytes when it is missing), create a temporary sibling file,
`chmod` it to `mode`, write all of `content` into it, and rename it onto
`path`; on an ordinary exception unlink the temporary file and raise
`MKGeneralException`, on `MKTerminate`/`MKTimeout` re-raise unmodified; in
all cases release the lock in the `finally` block. -/
def _save_data_to_file (t : Nat) (path : String) (content : Bytes) (mode : Nat)
    (fail : FailSpec) (reg : LockDict) (env : Env) : SaveRes :=
  let acqEv : Option ExcKind :=
    match fail with
    | some (.atLock, k) => some k
    | _ => none
  let a := aquire_lock t path true acqEv reg env
  match a.result with
  | .error e =>
      let r := release_lock t path a.reg a.env
      ⟨.error (outerExc e), r.1, r.2, [env, a.env, r.2]⟩
  | .ok () =>
    match fail with
    | some (.atTempCreate, k) =>
        let r := release_lock t path a.reg a.env
        ⟨.error (outerExc (excOf k)), r.1, r.2, [env, a.env, r.2]⟩
    | _ =>
      let envT := { a.env with files := setA (tmpName path) [] a.env.files }
      match fail with
      | some (.atChmod, k) => exceptCleanup t path k a.reg envT [env, a.env, envT]
      | _ =>
        let envC := { envT with modes := setA (tmpName path) mode envT.modes }
        match fail with
        | some (.atWrite, k) => exceptCleanup t path k a.reg envC [env, a.env, envT, envC]
        | _ =>
          let envW := { envC with files := setA (tmpName path) content envC.files }
          match fail with
          | some (.atRename, k) =>
              exceptCleanup t path k a.reg envW [env, a.env, envT, envC, envW]
          | _ =>
              let envR := { envW with
                files := setA path content (eraseA (tmpName path) envW.files),
                modes := setA path mode (eraseA (tmpName path) envW.modes) }
              let r := release_lock t path a.reg envR
              ⟨.ok (), r.1, r.2, [env, a.env, envT, envC, envW, envR, r.2]⟩

/-- A Python argument that is either text (`str`) or `bytes`; the typed save
helpers inspect it with `isinstance`. -/
inductive PyArg
  | str (s : List Char)
  | bytes (b : Bytes)
deriving Repr, DecidableEq

/-- `save_text_to_file(path, content, mode)`: reject non-text content with
`TypeError` before anything else happens, otherwise encode as UTF-8 and
delegate to `_save_data_to_file`. -/
def save_text_to_file (t : Nat) (path : String) (content : PyArg) (mode : Nat)
    (fail : FailSpec) (reg : LockDict) (env : Env) : SaveRes :=
  match content with
  | .str s => _save_data_to_file t path (encodeUtf8 s) mode fail reg env
  | .bytes _ => ⟨.error .typeError, reg, env, [env]⟩

/-- `save_bytes_to_file(path, content, mode)`: reject non-bytes content with
`TypeError` before anything else happens, otherwise delegate to
`_save_data_to_file`. -/
def save_bytes_to_file (t : Nat) (path : String) (content : PyArg) (mode : Nat)
    (fail : FailSpec) (reg : LockDict) (env : Env) : SaveRes :=
  match content with
  | .bytes b => _save_data_to_file t path b mode fail reg env
  | .str _ => ⟨.error .typeError, reg, env, [env]⟩

/-- `save_file(path, content)`: `ensure_binary` then `_save_data_to_file`. -/
def save_file (t : Nat) (path : String) (content : List Char) (mode : Nat)
    (fail : FailSpec) (reg : LockDict) (env : Env) : SaveRes :=
  _save_data_to_file t path (encodeUtf8 content) mode fail reg env

/-- Python literal values: the fragment persisted by `save_object_to_file`
and parsed back by `ast.literal_eval` (nested mappings, sequences and
scalars; no custom object types). -/
inductive PyVal
  | int (n : Int)
  | bool (b : Bool)
  | pynone
  | str (s : List Char)
  | list (xs : List PyVal)
  | dict (kvs : List (PyVal × PyVal))
deriving Repr

/-- The decimal digit character for `d` (defined for `d < 10`). -/
def digitChar (d : Nat) : Char :=
  match d with
  | 0 => '0' | 1 => '1' | 2 => '2' | 3 => '3' | 4 => '4'
  | 5 => '5' | 6 => '6' | 7 => '7' | 8 => '8' | _ => '9'

/-- Decimal digits of a natural number, most significant first (the digit
string `repr` prints for a non-negative integer). -/
def natDigits (n : Nat) : List Char :=
  if n < 10 then [digitChar n]
  else natDigits (n / 10) ++ [digitChar (n % 10)]
decreasing_by exact Nat.div_lt_self (by omega) (by omega)

/-- `repr` of a Python `int`. -/
def intRepr (n : Int) : List Char :=
  if n < 0 then '-' :: natDigits n.natAbs else natDigits n.natAbs

mutual
/-- Rendering of a value with a configurable whitespace layout: `pad d` is
the (all-whitespace) run emitted after each comma at nesting depth `d`.
`repr` uses a single space everywhere; `pprint.pformat` uses a newline plus
indentation.  Tokens and their order are those of Python `repr`. -/
def renderPad (pad : Nat → List Char) (d : Nat) : PyVal → List Char
  | .int n => intRepr n
  | .bool true => ['T', 'r', 'u', 'e']
  | .bool false => ['F', 'a', 'l', 's', 'e']
  | .pynone => ['N', 'o', 'n', 'e']
  | .str s => '\'' :: (s ++ ['\''])
  | .list [] => ['[', ']']
  | .list (x :: xs) => '[' :: (renderPad pad (d + 1) x ++ renderItems pad (d + 1) xs)
  | .dict [] => ['{', '}']
  | .dict ((k, v) :: r) =>
      '{' :: (renderPad pad (d + 1) k ++ ':' :: ' ' :: renderPad pad (d + 1) v
        ++ renderPairs pad (d + 1) r)
/-- Continuation of a non-empty list rendering: `, <elem>` repeated, then `]`. -/
def renderItems (pad : Nat → List Char) (d : Nat) : List PyVal → List Char
  | [] => [']']
  | y :: ys => ',' :: (pad d ++ renderPad pad d y ++ renderItems pad d ys)
/-- Continuation of a non-empty dict rendering: `, <key>: <val>` repeated, then `}`. -/
def renderPairs (pad : Nat → List Char) (d : Nat) : List (PyVal × PyVal) → List Char
  | [] => ['}']
  | (k, v) :: r =>
      ',' :: (pad d ++ renderPad pad d k ++ ':' :: ' ' :: renderPad pad d v
        ++ renderPairs pad d r)
end

/-- `repr(value)`: the compact rendering, a single space after commas. -/
def reprV (v : PyVal) : List Char := renderPad (fun _ => [' ']) 0 v

/-- Model of `pprint.pformat(value)`: the multi-line rendering, a newline
plus depth-proportional indentation after commas.  (The real `pformat`
chooses line breaks by width; any such choice differs from `repr` only in
the whitespace run emitted after commas, which is what the layout parameter
captures.) -/
def pformatV (v : PyVal) : List Char := renderPad (fun d => '\n' :: List.replicate d ' ') 0 v

/-- Whitespace characters skipped between tokens. -/
def isWsChar (c : Char) : Bool := c = ' ' || c = '\n' || c = '\t' || c = '\r'

/-- Drop leading whitespace. -/
def skipWs : List Char → List Char
  | [] => []
  | c :: cs => if isWsChar c then skipWs cs else c :: cs

/-- Numeric value of a digit character. -/
def digitVal (c : Char) : Nat := c.toNat - 48

/-- Consume a maximal run of decimal digits, accumulating their value. -/
def readDigits : List Char → Nat → Nat × List Char
  | [], acc => (acc, [])
  | c :: cs, acc => if c.isDigit then readDigits cs (acc * 10 + digitVal c) else (acc, c :: cs)

/-- Consume characters up to the closing single quote of a string literal. -/
def readStr : List Char → Option (List Char × List Char)
  | [] => none
  | c :: cs =>
      if c = '\'' then some ([], cs)
      else (readStr cs).map (fun r => (c :: r.1, r.2))

/-- Match a fixed token at the head of the input, returning the remainder. -/
def stripTok : List Char → List Char → Option (List Char)
  | [], cs => some cs
  | _ :: _, [] => none
  | k :: ks, c :: cs => if c = k then stripTok ks cs else none

mutual
/-- Recursive-descent parser for the Python literal fragment, the model of
`ast.literal_eval` restricted to the values `save_object_to_file` emits.
Fuel decreases at each recursive step; `literalEval` supplies enough. -/
def parseVal : Nat → List Char → Option (PyVal × List Char)
  | 0, _ => none
  | fuel + 1, cs =>
    match skipWs cs with
    | [] => none
    | c :: rest =>
      if c = '\'' then (readStr rest).map (fun r => (PyVal.str r.1, r.2))
      else if c = '[' then
        match skipWs rest with
        | [] => none
        | c2 :: r2 =>
            if c2 = ']' then some (.list [], r2)
            else
              match parseVal fuel (c2 :: r2) with
              | none => none
              | some (v, r3) =>
                  match parseItems fuel r3 with
                  | none => none
                  | some (vs, r4) => some (.list (v :: vs), r4)
      else if c = '{' then
        match skipWs rest with
        | [] => none
        | c2 :: r2 =>
            if c2 = '}' then some (.dict [], r2)
            else
              match parseVal fuel (c2 :: r2) with
              | none => none
              | some (k, r3) =>
                  match skipWs r3 with
                  | [] => none
                  | c3 :: r4 =>
                      if c3 = ':' then
                        match parseVal fuel r4 with
                        | none => none
                        | some (v, r5) =>
                            match parsePairs fuel r5 with
                            | none => none
                            | some (kvs, r6) => some (.dict ((k, v) :: kvs), r6)
                      else none
      else if c = '-' then
        match rest with
        | [] => none
        | d :: ds =>
            if d.isDigit then
              let r := readDigits (d :: ds) 0
              some (.int (-(r.1 : Int)), r.2)
            else none
      else if c.isDigit then
        let r := readDigits (c :: rest) 0
        some (.int (r.1 : Int), r.2)
      else
        match stripTok ['T', 'r', 'u', 'e'] (c :: rest) with
        | some r => some (.bool true, r)
        | none =>
            match stripTok ['F', 'a', 'l', 's', 'e'] (c :: rest) with
            | some r => some (.bool false, r)
            | none =>
                match stripTok ['N', 'o', 'n', 'e'] (c :: rest) with
                | some r => some (.pynone, r)
                | none => none
/-- Parse the continuation of a non-empty list: `, <elem>` repeated until `]`. -/
def parseItems : Nat → List Char → Option (List PyVal × List Char)
  | 0, _ => none
  | fuel + 1, cs =>
    match skipWs cs with
    | [] => none
    | c :: r =>
        if c = ']' then some ([], r)
        else if c = ',' then
          match parseVal fuel r with
          | none => none
          | some (v, r2) =>
              match parseItems fuel r2 with
              | none => none
              | some (vs, r3) => some (v :: vs, r3)
        else none
/-- Parse the continuation of a non-empty dict: `, <key>: <val>` until `}`. -/
def parsePairs : Nat → List Char → Option (List (PyVal × PyVal) × List Char)
  | 0, _ => none
  | fuel + 1, cs =>
    match skipWs cs with
    | [] => none
    | c :: r =>
        if c = '}' then some ([], r)
        else if c = ',' then
          match parseVal fuel r with
          | none => none
          | some (k, r2) =>
              match skipWs r2 with
              | [] => none
              | c3 :: r3 =>
                  if c3 = ':' then
                    match parseVal fuel r3 with
                    | none => none
                    | some (v, r4) =>
                        match parsePairs fuel r4 with
                        | none => none
                        | some (kvs, r5) => some ((k, v) :: kvs, r5)
                  else none
        else none
end

/-- `ast.literal_eval(content)`: parse one literal, allowing surrounding
whitespace; anything else is a `ValueError`. -/
def literalEval (cs : List Char) : Option PyVal :=
  match parseVal (2 * cs.length + 1) cs with
  | some (v, rest) => if skipWs rest = [] then some v else none
  | none => none

/-- Result of a load operation: the value produced (or the exception
raised) plus the final registry and environment. -/
structure LoadRes (α : Type) where
  result : Except Exc α
  reg : LockDict
  env : Env
deriving Repr

/-- The `try` body of `_load_bytes_from_file`: read the file's bytes
(`FileNotFoundError` yields `b""`); on `MKTerminate`/`MKTimeout` release the
lock (when one was taken) and re-raise; on any other exception release the
lock (when one was taken) and raise `MKGeneralException`.  On success the
bytes are returned with no release. -/
def loadBody (t : Nat) (path : String) (lock : Bool) (readEv : Option ExcKind)
    (reg : LockDict) (env : Env) : LoadRes Bytes :=
  match readEv with
  | some .terminate =>
      let r := if lock then release_lock t path reg env else (reg, env)
      ⟨.error .mkTerminate, r.1, r.2⟩
  | some .timeout =>
      let r := if lock then release_lock t path reg env else (reg, env)
      ⟨.error .mkTimeout, r.1, r.2⟩
  | some .generic =>
      let r := if lock then release_lock t path reg env else (reg, env)
      ⟨.error .mkGeneral, r.1, r.2⟩
  | none =>
      match getA env.files path with
      | some bs => ⟨.ok bs, reg, env⟩
      | none => ⟨.ok [], reg, env⟩

/-- `_load_bytes_from_file(path, lock)`: optionally acquire the lock (this
happens before the `try`, so a failure there propagates raw), then run the
guarded read. -/
def _load_bytes_from_file (t : Nat) (path : String) (lock : Bool)
    (acqEv readEv : Option ExcKind) (reg : LockDict) (env : Env) : LoadRes Bytes :=
  if lock then
    let a := aquire_lock t path true acqEv reg env
    match a.result with
    | .error e => ⟨.error e, a.reg, a.env⟩
    | .ok () => loadBody t path true readEv a.reg a.env
  else loadBody t path false readEv reg env

/-- `load_bytes_from_file(path, default, lock)`: the read bytes, with `b""`
replaced by `default`. -/
def load_bytes_from_file (t : Nat) (path : String) (default : Bytes) (lock : Bool)
    (acqEv readEv : Option ExcKind) (reg : LockDict) (env : Env) : LoadRes Bytes :=
  let r := _load_bytes_from_file t path lock acqEv readEv reg env
  match r.result with
  | .ok bs => ⟨.ok (if bs = [] then default else bs), r.reg, r.env⟩
  | .error e => ⟨.error e, r.reg, r.env⟩

/-- `load_text_from_file(path, default, lock)`: bytes decoded as UTF-8, the
empty string replaced by `default`; a decode failure propagates raw. -/
def load_text_from_file (t : Nat) (path : String) (default : List Char) (lock : Bool)
    (acqEv readEv : Option ExcKind) (reg : LockDict) (env : Env) : LoadRes (List Char) :=
  let r := _load_bytes_from_file t path lock acqEv readEv reg env
  match r.result with
  | .ok bs =>
      match decodeUtf8 bs with
      | some s => ⟨.ok (if s = [] then default else s), r.reg, r.env⟩
      | none => ⟨.error .decodeError, r.reg, r.env⟩
  | .error e => ⟨.error e, r.reg, r.env⟩

/-- `load_object_from_file(path, default, lock)`: decoded content parsed by
`ast.literal_eval` when non-empty, `default` otherwise; decode and parse
failures propagate raw. -/
def load_object_from_file (t : Nat) (path : String) (default : PyVal) (lock : Bool)
    (acqEv readEv : Option ExcKind) (reg : LockDict) (env : Env) : LoadRes PyVal :=
  let r := _load_bytes_from_file t path lock acqEv readEv reg env
  match r.result with
  | .ok bs =>
      match decodeUtf8 bs with
      | some content =>
          if content = [] then ⟨.ok default, r.reg, r.env⟩
          else
            match literalEval content with
            | some v => ⟨.ok v, r.reg, r.env⟩
            | none => ⟨.error .valueError, r.reg, r.env⟩
      | none => ⟨.error .decodeError, r.reg, r.env⟩
  | .error e => ⟨.error e, r.reg, r.env⟩

/-- `save_object_to_file(path, data, pretty)`: render (`pprint.pformat` when
pretty, `repr` otherwise), append a newline, and persist via `save_file`. -/
def save_object_to_file (t : Nat) (path : String) (data : PyVal) (pretty : Bool)
    (fail : FailSpec) (reg : LockDict) (env : Env) : SaveRes :=
  let formatted_data := if pretty then pformatV data else reprV data
  save_file t path (formatted_data ++ ['\n']) 0o660 fail reg env

/-- A Python dict of configuration variables, as consumed by `load_mk_file`
(the mapping handed to `exec` as its local namespace). -/
abbrev PyDict := List (String × PyVal)

/-- The guarded body of `load_mk_file`: open and `exec` the file content
against `d` (a missing file is absorbed and yields `d` unchanged);
`MKTerminate`/`MKTimeout` are re-raised, any other failure surfaces as
`MKGeneralException`.  `execFn` is the external config-script execution
collaborator: it returns the updated mapping, or `none` when the executed
content raises.  Note: no lock release happens on these error paths. -/
def load_mk_body (t : Nat) (path : String) (d : PyDict)
    (execFn : Bytes → PyDict → Option PyDict) (readEv : Option ExcKind)
    (reg : LockDict) (env : Env) : LoadRes PyDict :=
  match readEv with
  | some .terminate => ⟨.error .mkTerminate, reg, env⟩
  | some .timeout => ⟨.error .mkTimeout, reg, env⟩
  | some .generic => ⟨.error .mkGeneral, reg, env⟩
  | none =>
      match getA env.files path with
      | none => ⟨.ok d, reg, env⟩
      | some content =>
          match execFn content d with
          | some d2 => ⟨.ok d2, reg, env⟩
          | none => ⟨.error .mkGeneral, reg, env⟩

/-- `load_mk_file(path, default, lock)`: reject a missing default with
`MKGeneralException`; optionally acquire the lock (before the `try`, so an
acquisition failure propagates raw); then run the guarded body. -/
def load_mk_file (t : Nat) (path : String) (default : Option PyDict) (lock : Bool)
    (execFn : Bytes → PyDict → Option PyDict) (acqEv readEv : Option ExcKind)
    (reg : LockDict) (env : Env) : LoadRes PyDict :=
  match default with
  | none => ⟨.error .mkGeneral, reg, env⟩
  | some d =>
      if lock then
        let a := aquire_lock t path true acqEv reg env
        match a.result with
        | .error e => ⟨.error e, a.reg, a.env⟩
        | .ok () => load_mk_body t path d execFn readEv a.reg a.env
      else load_mk_body t path d execFn readEv reg env

/-- `load_from_mk_file(path, key, default, lock)`: read a single key through
`load_mk_file` — which the source calls with `lock=False` regardless of the
`lock` argument — and subscript the resulting mapping. -/
def load_from_mk_file (t : Nat) (path : String) (key : String) (default : PyVal)
    (lock : Bool) (execFn : Bytes → PyDict → Option PyDict)
    (acqEv readEv : Option ExcKind) (reg : LockDict) (env : Env) : LoadRes PyVal :=
  let r := load_mk_file t path (some [(key, default)]) false execFn acqEv readEv reg env
  match r.result with
  | .ok d =>
      match getA d key with
      | some v => ⟨.ok v, r.reg, r.env⟩
      | none => ⟨.error .keyError, r.reg, r.env⟩
  | .error e => ⟨.error e, r.reg, r.env⟩

/-- A concrete sample environment: file `p` exists with two bytes, thread 1
holds the OS lock on it. -/
def envW : Env := ⟨[("p", [104, 105])], [("p", 432)], [("p", 1)], 7, 1⟩

/-- Did an operation finish without raising? -/
def isOk {ε α : Type} : Except ε α → Bool
  | .ok _ => true
  | .error _ => false

/-- A string character that `repr` prints verbatim inside single quotes:
printable ASCII, not the quote itself and not a backslash (anything else
would be escaped, which this fragment does not model). -/
def safeChar (c : Char) : Bool :=
  (decide (32 ≤ c.toNat) && decide (c.toNat < 127)) && (!(c == '\'') && !(c == '\\'))

mutual
/-- Values in the modelled fragment whose rendering round-trips verbatim:
every string is made of `safeChar` characters. -/
def safeV : PyVal → Bool
  | .int _ => true
  | .bool _ => true
  | .pynone => true
  | .str s => s.all safeChar
  | .list xs => safeItems xs
  | .dict kvs => safePairs kvs
/-- `safeV` on every element of a list. -/
def safeItems : List PyVal → Bool
  | [] => true
  | x :: xs => safeV x && safeItems xs
/-- `safeV` on every key and value of a dict. -/
def safePairs : List (PyVal × PyVal) → Bool
  | [] => true
  | (k, v) :: r => (safeV k && safeV v) && safePairs r
end

mutual
/-- Fuel bound for the parser: a measure dominated by the token count of the
rendering. -/
def szV : PyVal → Nat
  | .int _ => 1
  | .bool _ => 1
  | .pynone => 1
  | .str _ => 1
  | .list xs => 1 + szItems xs
  | .dict kvs => 1 + szPairs kvs
/-- Fuel measure of a list continuation. -/
def szItems : List PyVal → Nat
  | [] => 1
  | x :: xs => 1 + szV x + szItems xs
/-- Fuel measure of a dict continuation. -/
def szPairs : List (PyVal × PyVal) → Nat
  | [] => 1
  | (k, v) :: r => 1 + szV k + szV v + szPairs r
end

/-- The whitespace layout parameter only emits whitespace. -/
def PadOk (pad : Nat → List Char) : Prop :=
  ∀ d, ∀ c ∈ pad d, isWsChar c = true

/-- The whitespace layout parameter only emits ASCII. -/
def PadAscii (pad : Nat → List Char) : Prop :=
  ∀ d, ∀ c ∈ pad d, c.toNat < 128

/-- The continuation input never starts with a digit (so a maximal-munch
number token stops exactly at the rendering boundary). -/
def headND : List Char → Bool
  | [] => true
  | c :: _ => !c.isDigit

/-- Characters that can start the rendering of a value. -/
def starterChar (c : Char) : Bool :=
  c.isDigit || (c == '-') || (c == '\'') || (c == '[') || (c == '{')
    || (c == 'T') || (c == 'F') || (c == 'N')

/-- The spec's scenario value `{"a": 1, "b": [1, 2, 3]}`. -/
def vScn : PyVal :=
  .dict [(.str ['a'], .int 1), (.str ['b'], .list [.int 1, .int 2, .int 3])]

theorem tmpName_ne (path : String) : tmpName path ≠ path := by
  intro h
  have hlen := congrArg String.length h
  simp only [tmpName, String.length_append] at hlen
  have h1 : (".".length) = 1 := rfl
  have h2 : (".new0".length) = 5 := rfl
  omega

theorem ne_tmpName (path : String) : path ≠ tmpName path :=
  fun h => tmpName_ne path h.symm

theorem decodeUtf8Aux_ascii (s : List Char) : ∀ fuel : Nat, (∀ c ∈ s, c.toNat < 128) →
    s.length ≤ fuel → decodeUtf8Aux fuel (encodeUtf8 s) = some s := by
  induction s with
  | nil => intro fuel _ _; cases fuel <;> rfl
  | cons c cs ih =>
      intro fuel h hlen
      have hc : c.toNat < 128 := h c (by simp)
      obtain ⟨f, rfl⟩ : ∃ f, fuel = f + 1 := by
        cases fuel with
        | zero => simp at hlen
        | succ f => exact ⟨f, rfl⟩
      have henc : utf8EncodeChar c ++ encodeUtf8 cs = c.toNat :: encodeUtf8 cs := by
        simp [utf8EncodeChar, hc]
      rw [encodeUtf8_cons, henc]
      have ih' := ih f (fun x hx => h x (by simp [hx])) (by simpa using Nat.lt_succ_iff.mp hlen)
      simp only [decodeUtf8Aux]
      rw [if_pos hc, ih']
      simp [Char.ofNat_toNat]

/-- Every character occupies at least one byte of its UTF-8 encoding. -/
theorem length_le_encodeUtf8 (s : List Char) : s.length ≤ (encodeUtf8 s).length := by
  induction s with
  | nil => simp
  | cons c cs ih =>
      rw [encodeUtf8_cons]
      have hne : 1 ≤ (utf8EncodeChar c).length := by
        simp only [utf8EncodeChar]
        split
        · simp
        · split
          · simp
          · split <;> simp
      simp only [List.length_append, List.length_cons]
      omega

/-- Decoding inverts encoding on ASCII content (the fragment the theorems
below feed through the filesystem). -/
theorem decodeUtf8_encodeUtf8_ascii (s : List Char) (h : ∀ c ∈ s, c.toNat < 128) :
    decodeUtf8 (encodeUtf8 s) = some s :=
  decodeUtf8Aux_ascii s (encodeUtf8 s).length h (length_le_encodeUtf8 s)

theorem have_lock_release (t : Nat) (path : String) (reg : LockDict) (env : Env) :
    have_lock (release_lock t path reg env).1 path = false := by
  unfold release_lock
  by_cases h : have_lock reg path
  · rw [if_pos h]
    cases hg : getA reg path with
    | none => simp [have_lock, hg] at h
    | some fd => simp [have_lock]
  · rw [if_neg h]
    simpa using h

/-- C5: on every exit path of `_save_data_to_file` — normal return, failure
during lock acquisition, temp-file creation, chmod, write or rename, of any
kind including termination and timeout — the `finally` block releases the
lock, so afterwards the calling thread's registry no longer records `path`
as held. -/
theorem claim_C5_save_releases_lock_on_every_exit (t : Nat) (path : String)
    (content : Bytes) (mode : Nat) (fail : FailSpec) (reg : LockDict) (env : Env) :
    have_lock (_save_data_to_file t path content mode fail reg env).reg path = false := by
  unfold _save_data_to_file
  rcases fail with _ | ⟨pt, k⟩
  · cases hres : (aquire_lock t path true none reg env).result with
    | error e => simp [hres, have_lock_release]
    | ok u => cases u; simp [hres, have_lock_release]
  · cases pt <;> cases k <;>
      first
      | (cases hres : (aquire_lock t path true (some ExcKind.generic) reg env).result with
         | error e => simp [hres, exceptCleanup, have_lock_release]
         | ok u => cases u; simp [hres, exceptCleanup, have_lock_release])
      | (cases hres : (aquire_lock t path true (some ExcKind.terminate) reg env).result with
         | error e => simp [hres, exceptCleanup, have_lock_release]
         | ok u => cases u; simp [hres, exceptCleanup, have_lock_release])
      | (cases hres : (aquire_lock t path true (some ExcKind.timeout) reg env).result with
         | error e => simp [hres, exceptCleanup, have_lock_release]
         | ok u => cases u; simp [hres, exceptCleanup, have_lock_release])
      | (cases hres : (aquire_lock t path true none reg env).result with
         | error e => simp [hres, exceptCleanup, have_lock_release]
         | ok u => cases u; simp [hres, exceptCleanup, have_lock_release])

/-- C9: `save_text_to_file` raises `TypeError` on non-text content and
`save_bytes_to_file` raises `TypeError` on non-bytes content, in both cases
synchronously — before any lock acquisition or file I/O — leaving the
registry and the whole environment (files, modes, locks) unchanged. -/
theorem claim_C9_typed_saves_reject_before_io (t : Nat) (path : String) (b : Bytes)
    (s : List Char) (mode : Nat) (fail : FailSpec) (reg : LockDict) (env : Env) :
    save_text_to_file t path (.bytes b) mode fail reg env
      = ⟨.error .typeError, reg, env, [env]⟩ ∧
    save_bytes_to_file t path (.str s) mode fail reg env
      = ⟨.error .typeError, reg, env, [env]⟩ :=
  ⟨rfl, rfl⟩

theorem load_mk_body_state (t : Nat) (path : String) (d : PyDict)
    (execFn : Bytes → PyDict → Option PyDict) (readEv : Option ExcKind)
    (reg : LockDict) (env : Env) :
    (load_mk_body t path d execFn readEv reg env).reg = reg ∧
    (load_mk_body t path d execFn readEv reg env).env = env := by
  unfold load_mk_body
  rcases readEv with _ | k
  · cases hg : getA env.files path with
    | none => simp [hg]
    | some content => cases he : execFn content d <;> simp [hg, he]
  · cases k <;> simp

/-- C10: `load_from_mk_file` never acquires the lock on `path`: whatever its
`lock` argument, the call equals the `lock=false` call (the source passes
`lock=False` to the underlying loader unconditionally), and it leaves the
calling thread's registry and the environment untouched. -/
theorem claim_C10_load_from_mk_file_never_locks (t : Nat) (path key : String)
    (default : PyVal) (lockArg : Bool) (execFn : Bytes → PyDict → Option PyDict)
    (acqEv readEv : Option ExcKind) (reg : LockDict) (env : Env) :
    load_from_mk_file t path key default lockArg execFn acqEv readEv reg env
      = load_from_mk_file t path key default false execFn acqEv readEv reg env ∧
    (load_from_mk_file t path key default lockArg execFn acqEv readEv reg env).reg = reg ∧
    (load_from_mk_file t path key default lockArg execFn acqEv readEv reg env).env = env := by
  refine ⟨rfl, ?_, ?_⟩ <;>
  · unfold load_from_mk_file load_mk_file
    obtain ⟨h1, h2⟩ := load_mk_body_state t path [(key, default)] execFn readEv reg env
    cases hres : (load_mk_body t path [(key, default)] execFn readEv reg env).result with
    | error e => simp [hres, h1, h2]
    | ok d =>
        cases hk : getA d key with
        | none => simp [hres, hk, h1, h2]
        | some v => simp [hres, hk, h1, h2]

@[simp] theorem createIfAbsent_osLock (path : String) (mode : Nat) (env : Env) :
    (createIfAbsent path mode env).osLock = env.osLock := by
  unfold createIfAbsent
  cases getA env.files path <;> rfl

@[simp] theorem createIfAbsent_nextFd (path : String) (mode : Nat) (env : Env) :
    (createIfAbsent path mode env).nextFd = env.nextFd := by
  unfold createIfAbsent
  cases getA env.files path <;> rfl

@[simp] theorem createIfAbsent_flockCalls (path : String) (mode : Nat) (env : Env) :
    (createIfAbsent path mode env).flockCalls = env.flockCalls := by
  unfold createIfAbsent
  cases getA env.files path <;> rfl

theorem getA_eraseOsEntry_self (path : String) (t : Nat) (l : List (String × Nat))
    (huniq : ∀ u, (path, u) ∈ l → u = t) :
    getA (eraseOsEntry path t l) path = none := by
  induction l with
  | nil => rfl
  | cons p rest ih =>
      obtain ⟨q, u⟩ := p
      have ih' := ih (fun w hw => huniq w (by simp [hw]))
      by_cases h : q = path ∧ u = t
      · simp [eraseOsEntry, h, ih']
      · have hq : q ≠ path := by
          intro hq
          subst hq
          exact h ⟨rfl, huniq u (by simp)⟩
        simp [eraseOsEntry, h, hq, ih']

/-- C2: mutual exclusion between different threads.  While thread `t1` holds
the OS lock on `path` (its descriptor is the `flock` holder and its registry
records the path), a non-blocking `try_aquire_lock` by a different thread
`t2` returns `False`; once `t1` runs `release_lock`, `t2`'s
`try_aquire_lock` returns `True` and `t2`'s registry then records the
lock. -/
theorem claim_C2_mutual_exclusion (t1 t2 : Nat) (path : String)
    (reg1 reg2 : LockDict) (env : Env)
    (hheld1 : have_lock reg1 path = true)
    (hos : getA env.osLock path = some t1)
    (huniq : ∀ u, (path, u) ∈ env.osLock → u = t1)
    (hnot2 : have_lock reg2 path = false) :
    (try_aquire_lock t2 path none reg2 env).result = .ok false ∧
    (try_aquire_lock t2 path none reg2 (release_lock t1 path reg1 env).2).result = .ok true ∧
    have_lock (try_aquire_lock t2 path none reg2 (release_lock t1 path reg1 env).2).reg path
      = true := by
  have hnot2' : (getA reg2 path).isSome = false := hnot2
  refine ⟨?_, ?_, ?_⟩
  · unfold try_aquire_lock aquire_lock
    simp [have_lock, hnot2', hos]
  · unfold try_aquire_lock aquire_lock release_lock
    rw [if_pos hheld1]
    cases hg : getA reg1 path with
    | none => simp [have_lock, hg] at hheld1
    | some fd =>
        simp [have_lock, hg, hnot2', getA_eraseOsEntry_self path t1 env.osLock huniq]
  · unfold try_aquire_lock aquire_lock release_lock
    rw [if_pos hheld1]
    cases hg : getA reg1 path with
    | none => simp [have_lock, hg] at hheld1
    | some fd =>
        simp [have_lock, hg, hnot2', getA_eraseOsEntry_self path t1 env.osLock huniq]

theorem eraseA_sublist {α : Type} (key : String) (l : List (String × α)) :
    List.Sublist (eraseA key l) l := by
  induction l with
  | nil => simp [eraseA]
  | cons p rest ih =>
      obtain ⟨k, v⟩ := p
      by_cases h : k = key
      · simp only [eraseA, if_pos h]
        exact ih.cons _
      · simp only [eraseA, if_neg h]
        exact ih.cons₂ _

theorem keysNodup_eraseA {α : Type} (key : String) (l : List (String × α))
    (h : KeysNodup l) : KeysNodup (eraseA key l) :=
  ((eraseA_sublist key l).map Prod.fst).nodup h

theorem not_mem_keys_eraseA {α : Type} (key : String) (l : List (String × α)) :
    key ∉ (eraseA key l).map Prod.fst := by
  induction l with
  | nil => simp [eraseA]
  | cons p rest ih =>
      obtain ⟨k, v⟩ := p
      by_cases h : k = key
      · simpa [eraseA, h] using ih
      · simp only [eraseA, if_neg h, List.map_cons, List.mem_cons]
        rintro (rfl | hmem)
        · exact h rfl
        · exact ih hmem

theorem keysNodup_setA {α : Type} (key : String) (v : α) (l : List (String × α))
    (h : KeysNodup l) : KeysNodup (setA key v l) := by
  unfold KeysNodup setA
  rw [List.map_cons]
  exact List.nodup_cons.mpr ⟨not_mem_keys_eraseA key l, keysNodup_eraseA key l h⟩

/-- C3: re-entrant, non-counting lock acquisition.  When the calling
thread's registry already records `p` (descriptor `fd`), `aquire_lock`
returns immediately with registry and environment — in particular the
`flock`-call counter — unchanged; a single `release_lock` fully unlocks;
after that one release a fresh acquisition succeeds and performs exactly one
new OS lock call; and registry keys stay unique throughout, so at most one
descriptor per (thread, path) pair is ever registered. -/
theorem claim_C3_reentrant_noncounting (t : Nat) (p : String) (b : Bool)
    (ev : Option ExcKind) (fd : Nat) (reg : LockDict) (env : Env)
    (hfd : getA reg p = some fd)
    (huniq : ∀ u, (p, u) ∈ env.osLock → u = t)
    (hnd : KeysNodup reg) :
    aquire_lock t p b ev reg env = ⟨.ok (), reg, env⟩ ∧
    have_lock (release_lock t p reg env).1 p = false ∧
    ((aquire_lock t p true none (release_lock t p reg env).1
        (release_lock t p reg env).2).result = .ok () ∧
     have_lock (aquire_lock t p true none (release_lock t p reg env).1
        (release_lock t p reg env).2).reg p = true ∧
     (aquire_lock t p true none (release_lock t p reg env).1
        (release_lock t p reg env).2).env.flockCalls = env.flockCalls + 1) ∧
    KeysNodup (aquire_lock t p true none (release_lock t p reg env).1
        (release_lock t p reg env).2).reg ∧
    KeysNodup (release_lock t p reg env).1 := by
  have hheld : have_lock reg p = true := by simp [have_lock, hfd]
  have hrel : release_lock t p reg env
      = (eraseA p reg, { env with osLock := eraseOsEntry p t env.osLock }) := by
    unfold release_lock
    rw [if_pos hheld, hfd]
  refine ⟨?_, have_lock_release t p reg env, ⟨?_, ?_, ?_⟩, ?_, ?_⟩
  · unfold aquire_lock
    rw [if_pos hheld]
  · rw [hrel]
    unfold aquire_lock
    simp [have_lock, getA_eraseOsEntry_self p t env.osLock huniq]
  · rw [hrel]
    unfold aquire_lock
    simp [have_lock, getA_eraseOsEntry_self p t env.osLock huniq]
  · rw [hrel]
    unfold aquire_lock
    simp [have_lock, getA_eraseOsEntry_self p t env.osLock huniq]
  · rw [hrel]
    unfold aquire_lock
    simp [have_lock, getA_eraseOsEntry_self p t env.osLock huniq]
    exact keysNodup_setA p _ _ (keysNodup_eraseA p reg hnd)
  · rw [hrel]
    exact keysNodup_eraseA p reg hnd

/-- Witness for C2 at a concrete state: thread 1 holds `p`, thread 2's
non-blocking attempt fails, and succeeds after thread 1 releases. -/
theorem claim_C2_mutual_exclusion_witness :
    (try_aquire_lock 2 "p" none [] envW).result = .ok false ∧
    (try_aquire_lock 2 "p" none [] (release_lock 1 "p" [("p", 3)] envW).2).result = .ok true ∧
    have_lock (try_aquire_lock 2 "p" none [] (release_lock 1 "p" [("p", 3)] envW).2).reg "p"
      = true :=
  claim_C2_mutual_exclusion 1 2 "p" [("p", 3)] [] envW rfl rfl
    (by intro u hu; simp [envW] at hu; exact hu) rfl

/-- Witness for C3 at a concrete state: thread 1 already holds `p` with
descriptor 3. -/
theorem claim_C3_reentrant_noncounting_witness :
    aquire_lock 1 "p" true none [("p", 3)] envW = ⟨.ok (), [("p", 3)], envW⟩ ∧
    have_lock (release_lock 1 "p" [("p", 3)] envW).1 "p" = false ∧
    ((aquire_lock 1 "p" true none (release_lock 1 "p" [("p", 3)] envW).1
        (release_lock 1 "p" [("p", 3)] envW).2).result = .ok () ∧
     have_lock (aquire_lock 1 "p" true none (release_lock 1 "p" [("p", 3)] envW).1
        (release_lock 1 "p" [("p", 3)] envW).2).reg "p" = true ∧
     (aquire_lock 1 "p" true none (release_lock 1 "p" [("p", 3)] envW).1
        (release_lock 1 "p" [("p", 3)] envW).2).env.flockCalls = envW.flockCalls + 1) ∧
    KeysNodup (aquire_lock 1 "p" true none (release_lock 1 "p" [("p", 3)] envW).1
        (release_lock 1 "p" [("p", 3)] envW).2).reg ∧
    KeysNodup (release_lock 1 "p" [("p", 3)] envW).1 :=
  claim_C3_reentrant_noncounting 1 "p" true none 3 [("p", 3)] envW rfl
    (by intro u hu; simp [envW] at hu; exact hu) (by simp [KeysNodup])

theorem aquire_lock_ok_holds (t : Nat) (path : String) (b : Bool) (ev : Option ExcKind)
    (reg : LockDict) (env : Env)
    (hok : (aquire_lock t path b ev reg env).result = .ok ()) :
    have_lock (aquire_lock t path b ev reg env).reg path = true := by
  unfold aquire_lock at hok ⊢
  by_cases h : have_lock reg path
  · rw [if_pos h]
    exact h
  · rw [if_neg h] at hok ⊢
    rcases ev with _ | k
    · cases hg : getA (createIfAbsent path 0o660 env).osLock path with
      | some u =>
          simp only [hg] at hok
          cases b <;> simp at hok
      | none =>
          simp only [hg] at hok ⊢
          simp [have_lock]
    · simp at hok

theorem aquire_lock_error_not_held (t : Nat) (path : String) (b : Bool)
    (ev : Option ExcKind) (e : Exc) (reg : LockDict) (env : Env)
    (herr : (aquire_lock t path b ev reg env).result = .error e) :
    have_lock (aquire_lock t path b ev reg env).reg path = false := by
  unfold aquire_lock at herr ⊢
  by_cases h : have_lock reg path
  · rw [if_pos h] at herr
    simp at herr
  · rw [if_neg h] at herr ⊢
    rcases ev with _ | k
    · cases hg : getA (createIfAbsent path 0o660 env).osLock path with
      | some u =>
          simp only [hg] at herr ⊢
          cases b <;> simpa using h
      | none =>
          simp only [hg] at herr
          simp at herr
    · simpa using h

/-- C6 counterexample: a successful `load_bytes_from_file` with `lock=true`
returns with the lock still held — the registry still records the path —
contradicting the claim that the lock is held only for the duration of the
read.  (The release happens only on error exits; keeping the lock on success
is what lets a subsequent save run under the same lock.) -/
theorem claim_C6_counterexample :
    (load_bytes_from_file 1 "p" [0] true none none []
      ⟨[("p", [104, 105])], [("p", 432)], [], 7, 0⟩).result = .ok [104, 105] ∧
    have_lock (load_bytes_from_file 1 "p" [0] true none none []
      ⟨[("p", [104, 105])], [("p", 432)], [], 7, 0⟩).reg "p" = true :=
  ⟨rfl, rfl⟩

/-- C6 amended: in a locked load the lock is released exactly on the error
exits of the underlying byte read, for all three loaders.  After
`_load_bytes_from_file(path, lock=true)` and its `load_bytes_from_file`
wrapper the calling thread holds the lock if and only if the call returned
successfully.  `load_text_from_file` and `load_object_from_file` decode and
parse only after the locked read has returned, so for them the lock state
follows the byte read's outcome, not the call's: a decode or parse failure
raised afterwards propagates with the lock still held, while a failure of
the read itself leaves the lock released (or never acquired). -/
theorem claim_C6_amended_lock_follows_read_outcome (t : Nat) (path : String)
    (db : Bytes) (ds : List Char) (dv : PyVal) (acqEv readEv : Option ExcKind)
    (reg : LockDict) (env : Env) :
    have_lock (_load_bytes_from_file t path true acqEv readEv reg env).reg path
      = isOk (_load_bytes_from_file t path true acqEv readEv reg env).result ∧
    have_lock (load_bytes_from_file t path db true acqEv readEv reg env).reg path
      = isOk (load_bytes_from_file t path db true acqEv readEv reg env).result ∧
    have_lock (load_text_from_file t path ds true acqEv readEv reg env).reg path
      = isOk (_load_bytes_from_file t path true acqEv readEv reg env).result ∧
    have_lock (load_object_from_file t path dv true acqEv readEv reg env).reg path
      = isOk (_load_bytes_from_file t path true acqEv readEv reg env).result := by
  have hmain : have_lock (_load_bytes_from_file t path true acqEv readEv reg env).reg path
      = isOk (_load_bytes_from_file t path true acqEv readEv reg env).result := by
    unfold _load_bytes_from_file
    simp only [if_true]
    cases hres : (aquire_lock t path true acqEv reg env).result with
    | error e =>
        simp only [hres, isOk]
        exact aquire_lock_error_not_held t path true acqEv e reg env hres
    | ok u =>
        cases u
        have hheld := aquire_lock_ok_holds t path true acqEv reg env hres
        unfold loadBody
        rcases readEv with _ | k
        · cases hg : getA (aquire_lock t path true acqEv reg env).env.files path with
          | some bs => simpa [hg, isOk] using hheld
          | none => simpa [hg, isOk] using hheld
        · cases k <;> simp [isOk, have_lock_release]
  have htext : (load_text_from_file t path ds true acqEv readEv reg env).reg
      = (_load_bytes_from_file t path true acqEv readEv reg env).reg := by
    unfold load_text_from_file
    cases hres : (_load_bytes_from_file t path true acqEv readEv reg env).result with
    | ok bs =>
        cases hd : decodeUtf8 bs with
        | some str => simp [hres, hd]
        | none => simp [hres, hd]
    | error e => simp [hres]
  have hobj : (load_object_from_file t path dv true acqEv readEv reg env).reg
      = (_load_bytes_from_file t path true acqEv readEv reg env).reg := by
    unfold load_object_from_file
    cases hres : (_load_bytes_from_file t path true acqEv readEv reg env).result with
    | ok bs =>
        cases hd : decodeUtf8 bs with
        | some content =>
            by_cases hce : content = []
            · simp [hres, hd, hce]
            · cases hl : literalEval content with
              | some w => simp [hres, hd, hce, hl]
              | none => simp [hres, hd, hce, hl]
        | none => simp [hres, hd]
    | error e => simp [hres]
  refine ⟨hmain, ?_, ?_, ?_⟩
  · unfold load_bytes_from_file
    cases hres : (_load_bytes_from_file t path true acqEv readEv reg env).result with
    | ok bs =>
        rw [hres] at hmain
        simp [hres, isOk] at hmain ⊢
        exact hmain
    | error e =>
        rw [hres] at hmain
        simp [hres, isOk] at hmain ⊢
        exact hmain
  · rw [htext]
    exact hmain
  · rw [hobj]
    exact hmain

theorem release_lock_files (t : Nat) (path : String) (reg : LockDict) (env : Env) :
    (release_lock t path reg env).2.files = env.files := by
  unfold release_lock
  by_cases h : have_lock reg path
  · rw [if_pos h]
    cases getA reg path <;> rfl
  · rw [if_neg h]

/-- C4 counterexample: an `MKTerminate` raised during the write step is
re-raised by `_save_data_to_file` without deleting the temporary file — the
first `except` clause rethrows termination/timeout before the cleanup clause
runs — contradicting the claim that every exception raised before the rename
deletes the temporary file. -/
theorem claim_C4_counterexample :
    (_save_data_to_file 1 "p" [7, 8] 432 (some (.atWrite, .terminate)) []
      ⟨[("p", [1])], [("p", 432)], [], 3, 0⟩).result = .error .mkTerminate ∧
    getA (_save_data_to_file 1 "p" [7, 8] 432 (some (.atWrite, .terminate)) []
      ⟨[("p", [1])], [("p", 432)], [], 3, 0⟩).env.files (tmpName "p") = some [] :=
  ⟨rfl, rfl⟩

/-- C4 amended: for an ordinary exception (not a termination or timeout
request) raised at the chmod, write or rename step, the temporary file is
deleted before the failure propagates as `MKGeneralException`; a termination
or timeout exception at those steps propagates unmodified and leaves the
temporary file behind (only the lock is released). -/
theorem claim_C4_amended_temp_cleanup (t : Nat) (path : String) (content : Bytes)
    (mode : Nat) (reg : LockDict) (env : Env)
    (hacq : (aquire_lock t path true none reg env).result = .ok ()) :
    (∀ pt : FailPt, pt = .atChmod ∨ pt = .atWrite ∨ pt = .atRename →
      (_save_data_to_file t path content mode (some (pt, .generic)) reg env).result
        = .error .mkGeneral ∧
      getA (_save_data_to_file t path content mode (some (pt, .generic)) reg env).env.files
        (tmpName path) = none) ∧
    (∀ (pt : FailPt) (k : ExcKind), (pt = .atChmod ∨ pt = .atWrite ∨ pt = .atRename) →
      (k = .terminate ∨ k = .timeout) →
      (_save_data_to_file t path content mode (some (pt, k)) reg env).result
        = .error (excOf k) ∧
      (getA (_save_data_to_file t path content mode (some (pt, k)) reg env).env.files
        (tmpName path)).isSome = true) := by
  constructor
  · intro pt hpt
    rcases hpt with rfl | rfl | rfl <;>
      simp [_save_data_to_file, hacq, exceptCleanup, release_lock_files]
  · intro pt k hpt hk
    rcases hpt with rfl | rfl | rfl <;> rcases hk with rfl | rfl <;>
      simp [_save_data_to_file, hacq, exceptCleanup, excOf, release_lock_files]

theorem aquire_lock_files_eq (t : Nat) (path : String) (b : Bool) (ev : Option ExcKind)
    (reg : LockDict) (env : Env) (h : (getA env.files path).isSome = true) :
    (aquire_lock t path b ev reg env).env.files = env.files := by
  unfold aquire_lock
  by_cases hh : have_lock reg path
  · rw [if_pos hh]
  · rw [if_neg hh]
    have hc : createIfAbsent path 0o660 env = env := by
      unfold createIfAbsent
      cases hg : getA env.files path with
      | none => rw [hg] at h; simp at h
      | some bs => rfl
    rcases ev with _ | k
    · cases hg : getA env.osLock path <;> cases b <;> simp [hc, hg]
    · simp [hc]

/-- C1: atomic visibility of `_save_data_to_file`.  Starting from a state
where `path` holds `old`, every environment snapshot along the execution —
whatever failure the environment injects at the lock, temp-create, chmod,
write or rename step — shows `path` holding either the complete prior
content `old` or the complete new `content`; after a successful run `path`
holds exactly `content`; and when neither content is empty no snapshot ever
shows a zero-length file at `path` (the rename step introduces no
transitional empty state; the only empty file the writer can create is the
lock file for a previously missing `path`, which the `old`-exists premise
rules out). -/
theorem claim_C1_atomic_visibility (t : Nat) (path : String) (content old : Bytes)
    (mode : Nat) (fail : FailSpec) (reg : LockDict) (env : Env)
    (hold : getA env.files path = some old) :
    (∀ e ∈ (_save_data_to_file t path content mode fail reg env).trace,
       getA e.files path = some old ∨ getA e.files path = some content) ∧
    ((_save_data_to_file t path content mode fail reg env).result = .ok () →
       getA (_save_data_to_file t path content mode fail reg env).env.files path
         = some content) ∧
    (old ≠ [] → content ≠ [] →
       ∀ e ∈ (_save_data_to_file t path content mode fail reg env).trace,
         getA e.files path ≠ some []) := by
  have hsome : (getA env.files path).isSome = true := by simp [hold]
  have hfiles : ∀ ev, (aquire_lock t path true ev reg env).env.files = env.files :=
    fun ev => aquire_lock_files_eq t path true ev reg env hsome
  have hAll : ∀ e ∈ (_save_data_to_file t path content mode fail reg env).trace,
      getA e.files path = some old ∨ getA e.files path = some content := by
    unfold _save_data_to_file
    rcases fail with _ | ⟨pt, k⟩
    · cases hres : (aquire_lock t path true none reg env).result with
      | error e =>
          simp [hres, release_lock_files, hfiles, hold, ne_tmpName, tmpName_ne]
      | ok u =>
          cases u
          simp [hres, release_lock_files, hfiles, hold, ne_tmpName, tmpName_ne]
    · cases pt <;> cases k <;>
        first
        | (cases hres : (aquire_lock t path true (some ExcKind.generic) reg env).result with
           | error e =>
              simp [hres, exceptCleanup, release_lock_files, hfiles, hold, ne_tmpName, tmpName_ne]
           | ok u =>
              cases u
              simp [hres, exceptCleanup, release_lock_files, hfiles, hold, ne_tmpName, tmpName_ne])
        | (cases hres : (aquire_lock t path true (some ExcKind.terminate) reg env).result with
           | error e =>
              simp [hres, exceptCleanup, release_lock_files, hfiles, hold, ne_tmpName, tmpName_ne]
           | ok u =>
              cases u
              simp [hres, exceptCleanup, release_lock_files, hfiles, hold, ne_tmpName, tmpName_ne])
        | (cases hres : (aquire_lock t path true (some ExcKind.timeout) reg env).result with
           | error e =>
              simp [hres, exceptCleanup, release_lock_files, hfiles, hold, ne_tmpName, tmpName_ne]
           | ok u =>
              cases u
              simp [hres, exceptCleanup, release_lock_files, hfiles, hold, ne_tmpName, tmpName_ne])
        | (cases hres : (aquire_lock t path true none reg env).result with
           | error e =>
              simp [hres, exceptCleanup, release_lock_files, hfiles, hold, ne_tmpName, tmpName_ne]
           | ok u =>
              cases u
              simp [hres, exceptCleanup, release_lock_files, hfiles, hold, ne_tmpName, tmpName_ne])
  have hFin : (_save_data_to_file t path content mode fail reg env).result = .ok () →
      getA (_save_data_to_file t path content mode fail reg env).env.files path
        = some content := by
    unfold _save_data_to_file
    rcases fail with _ | ⟨pt, k⟩
    · cases hres : (aquire_lock t path true none reg env).result with
      | error e => simp [hres]
      | ok u =>
          cases u
          simp [hres, release_lock_files, ne_tmpName, tmpName_ne]
    · cases pt <;> cases k <;>
        first
        | (cases hres : (aquire_lock t path true (some ExcKind.generic) reg env).result with
           | error e => simp [hres]
           | ok u =>
              cases u
              simp [hres, exceptCleanup, release_lock_files, ne_tmpName, tmpName_ne])
        | (cases hres : (aquire_lock t path true (some ExcKind.terminate) reg env).result with
           | error e => simp [hres]
           | ok u =>
              cases u
              simp [hres, exceptCleanup, release_lock_files, ne_tmpName, tmpName_ne])
        | (cases hres : (aquire_lock t path true (some ExcKind.timeout) reg env).result with
           | error e => simp [hres]
           | ok u =>
              cases u
              simp [hres, exceptCleanup, release_lock_files, ne_tmpName, tmpName_ne])
        | (cases hres : (aquire_lock t path true none reg env).result with
           | error e => simp [hres]
           | ok u =>
              cases u
              simp [hres, exceptCleanup, release_lock_files, ne_tmpName, tmpName_ne])
  refine ⟨hAll, hFin, ?_⟩
  intro ho hc e he
  rcases hAll e he with h | h
  · rw [h]
    simpa using ho
  · rw [h]
    simpa using hc

/-- Witness for C1 at a concrete state: overwriting a one-byte file `p` with
`[9]` succeeds and leaves exactly the new content at `p`. -/
theorem claim_C1_atomic_visibility_witness :
    getA (_save_data_to_file 1 "p" [9] 432 none []
      ⟨[("p", [1])], [("p", 432)], [], 3, 0⟩).env.files "p" = some [9] :=
  (claim_C1_atomic_visibility 1 "p" [9] [1] 432 none []
    ⟨[("p", [1])], [("p", 432)], [], 3, 0⟩ rfl).2.1 rfl

/-- Witness for the amended C4 at a concrete state: an ordinary exception at
the write step yields `MKGeneralException` with the temporary file gone. -/
theorem claim_C4_amended_temp_cleanup_witness :
    (_save_data_to_file 1 "p" [7, 8] 432 (some (.atWrite, .generic)) []
      ⟨[("p", [1])], [("p", 432)], [], 3, 0⟩).result = .error .mkGeneral ∧
    getA (_save_data_to_file 1 "p" [7, 8] 432 (some (.atWrite, .generic)) []
      ⟨[("p", [1])], [("p", 432)], [], 3, 0⟩).env.files (tmpName "p") = none :=
  (claim_C4_amended_temp_cleanup 1 "p" [7, 8] 432 []
    ⟨[("p", [1])], [("p", 432)], [], 3, 0⟩ rfl).1 .atWrite (Or.inr (Or.inl rfl))

/-- C8: missing-file semantics.  Loading a nonexistent path returns the
caller-supplied default without raising, for all three loaders (bytes, text,
object); loading an existing but empty file also returns the default; and a
read failure other than file-absence propagates as `MKGeneralException`
instead of returning the default. -/
theorem claim_C8_missing_file_semantics (t : Nat) (path : String)
    (db : Bytes) (ds : List Char) (dv : PyVal) (reg : LockDict) (env : Env) :
    (getA env.files path = none →
       (load_bytes_from_file t path db false none none reg env).result = .ok db ∧
       (load_text_from_file t path ds false none none reg env).result = .ok ds ∧
       (load_object_from_file t path dv false none none reg env).result = .ok dv) ∧
    (getA env.files path = some [] →
       (load_bytes_from_file t path db false none none reg env).result = .ok db ∧
       (load_text_from_file t path ds false none none reg env).result = .ok ds ∧
       (load_object_from_file t path dv false none none reg env).result = .ok dv) ∧
    ((load_bytes_from_file t path db false none (some .generic) reg env).result
       = .error .mkGeneral ∧
     (load_text_from_file t path ds false none (some .generic) reg env).result
       = .error .mkGeneral ∧
     (load_object_from_file t path dv false none (some .generic) reg env).result
       = .error .mkGeneral) := by
  refine ⟨?_, ?_, ?_⟩
  · intro h
    refine ⟨?_, ?_, ?_⟩ <;>
      simp [load_bytes_from_file, load_text_from_file, load_object_from_file,
        _load_bytes_from_file, loadBody, h, decodeUtf8, decodeUtf8Aux]
  · intro h
    refine ⟨?_, ?_, ?_⟩ <;>
      simp [load_bytes_from_file, load_text_from_file, load_object_from_file,
        _load_bytes_from_file, loadBody, h, decodeUtf8, decodeUtf8Aux]
  · refine ⟨?_, ?_, ?_⟩ <;>
      simp [load_bytes_from_file, load_text_from_file, load_object_from_file,
        _load_bytes_from_file, loadBody]

/-- Witness for C8 on a concrete empty filesystem: loading the absent path
`p` yields each loader's default. -/
theorem claim_C8_missing_file_semantics_witness :
    (load_bytes_from_file 1 "p" [7] false none none [] ⟨[], [], [], 3, 0⟩).result
      = .ok [7] ∧
    (load_text_from_file 1 "p" ['x'] false none none [] ⟨[], [], [], 3, 0⟩).result
      = .ok ['x'] ∧
    (load_object_from_file 1 "p" (.int 5) false none none [] ⟨[], [], [], 3, 0⟩).result
      = .ok (.int 5) :=
  (claim_C8_missing_file_semantics 1 "p" [7] ['x'] (.int 5) [] ⟨[], [], [], 3, 0⟩).1 rfl

theorem szV_pos (v : PyVal) : 1 ≤ szV v := by
  cases v <;> simp [szV]

theorem digitChar_spec (d : Nat) (h : d < 10) :
    (digitChar d).isDigit = true ∧ digitVal (digitChar d) = d := by
  interval_cases d <;> exact ⟨by decide, by decide⟩

theorem natDigits_all_digit (n : Nat) : ∀ c ∈ natDigits n, c.isDigit = true := by
  induction n using Nat.strong_induction_on with
  | _ n ih =>
      by_cases h : n < 10
      · rw [natDigits, if_pos h]
        intro c hc
        simp at hc
        subst hc
        exact (digitChar_spec n h).1
      · rw [natDigits, if_neg h]
        intro c hc
        rcases List.mem_append.mp hc with hc | hc
        · exact ih (n / 10) (Nat.div_lt_self (by omega) (by omega)) c hc
        · simp at hc
          subst hc
          exact (digitChar_spec (n % 10) (Nat.mod_lt n (by omega))).1

theorem natDigits_ne_nil (n : Nat) : natDigits n ≠ [] := by
  by_cases h : n < 10
  · rw [natDigits, if_pos h]
    simp
  · rw [natDigits, if_neg h]
    simp

theorem readDigits_natDigits (n : Nat) : ∀ (acc : Nat) (rest : List Char),
    readDigits (natDigits n ++ rest) acc
      = readDigits rest (acc * 10 ^ (natDigits n).length + n) := by
  induction n using Nat.strong_induction_on with
  | _ n ih =>
      intro acc rest
      by_cases h : n < 10
      · rw [natDigits, if_pos h]
        simp only [List.singleton_append, readDigits, (digitChar_spec n h).1, if_true,
          (digitChar_spec n h).2]
        norm_num
      · rw [natDigits, if_neg h]
        rw [List.append_assoc]
        rw [ih (n / 10) (Nat.div_lt_self (by omega) (by omega))]
        have hd := digitChar_spec (n % 10) (Nat.mod_lt n (by omega))
        simp only [List.singleton_append, readDigits, hd.1, if_true, hd.2]
        have h2 : (natDigits (n / 10) ++ [digitChar (n % 10)]).length
            = (natDigits (n / 10)).length + 1 := by simp
        rw [h2]
        congr 1
        have hn : n / 10 * 10 + n % 10 = n := by omega
        calc (acc * 10 ^ (natDigits (n / 10)).length + n / 10) * 10 + n % 10
            = acc * 10 ^ ((natDigits (n / 10)).length + 1) + (n / 10 * 10 + n % 10) := by
              rw [pow_add, pow_one]; ring
          _ = acc * 10 ^ ((natDigits (n / 10)).length + 1) + n := by rw [hn]

theorem readDigits_stop (rest : List Char) (m : Nat) (h : headND rest = true) :
    readDigits rest m = (m, rest) := by
  cases rest with
  | nil => rfl
  | cons c cs =>
      simp [headND] at h
      simp [readDigits, h]

theorem readStr_closes (s : List Char) (rest : List Char)
    (h : ∀ c ∈ s, ¬(c = '\'')) :
    readStr (s ++ '\'' :: rest) = some (s, rest) := by
  induction s with
  | nil => simp [readStr]
  | cons c cs ih =>
      have hc : ¬(c = '\'') := h c (by simp)
      simp only [List.cons_append, readStr, if_neg hc, List.append_eq]
      rw [ih (fun x hx => h x (by simp [hx]))]
      rfl

theorem stripTok_self (tok rest : List Char) : stripTok tok (tok ++ rest) = some rest := by
  induction tok with
  | nil => rfl
  | cons c cs ih => simp [stripTok, ih]

theorem skipWs_not_ws (c : Char) (cs : List Char) (h : isWsChar c = false) :
    skipWs (c :: cs) = c :: cs := by
  simp [skipWs, h]

theorem skipWs_ws_append (w cs : List Char) (h : ∀ c ∈ w, isWsChar c = true) :
    skipWs (w ++ cs) = skipWs cs := by
  induction w with
  | nil => rfl
  | cons c ws ih =>
      have hc : isWsChar c = true := h c (by simp)
      simp only [List.cons_append, skipWs, hc, if_true]
      exact ih (fun x hx => h x (by simp [hx]))

theorem isDigit_ne_of (c d : Char) (h : c.isDigit = true) (hd : d.isDigit = false) :
    ¬(c = d) := by
  intro he
  subst he
  rw [h] at hd
  cases hd

theorem isDigit_not_ws (c : Char) (h : c.isDigit = true) : isWsChar c = false := by
  cases hw : isWsChar c with
  | false => rfl
  | true =>
      exfalso
      simp [isWsChar] at hw
      rcases hw with ((rfl | rfl) | rfl) | rfl <;> exact absurd h (by decide)

theorem starter_facts (c : Char) (h : starterChar c = true) :
    isWsChar c = false ∧ ¬(c = ']') ∧ ¬(c = '}') ∧ ¬(c = ':') ∧ ¬(c = ',') := by
  simp [starterChar] at h
  rcases h with ((((((h | rfl) | rfl) | rfl) | rfl) | rfl) | rfl) | rfl
  · exact ⟨isDigit_not_ws c h, isDigit_ne_of c _ h (by decide), isDigit_ne_of c _ h (by decide),
      isDigit_ne_of c _ h (by decide), isDigit_ne_of c _ h (by decide)⟩
  all_goals exact ⟨by decide, by decide, by decide, by decide, by decide⟩

theorem renderPad_starter (pad : Nat → List Char) (d : Nat) (v : PyVal) :
    ∃ c cs, renderPad pad d v = c :: cs ∧ starterChar c = true := by
  cases v with
  | int n =>
      by_cases h : n < 0
      · exact ⟨'-', natDigits n.natAbs, by simp [renderPad, intRepr, h], by decide⟩
      · obtain ⟨c, cs, hc⟩ : ∃ c cs, natDigits n.natAbs = c :: cs := by
          cases hnd : natDigits n.natAbs with
          | nil => exact absurd hnd (natDigits_ne_nil _)
          | cons a as => exact ⟨a, as, rfl⟩
        refine ⟨c, cs, by simp [renderPad, intRepr, h, hc], ?_⟩
        have hdg : c.isDigit = true := natDigits_all_digit n.natAbs c (by rw [hc]; simp)
        simp [starterChar, hdg]
  | bool b =>
      cases b
      · exact ⟨'F', ['a', 'l', 's', 'e'], by simp [renderPad], by decide⟩
      · exact ⟨'T', ['r', 'u', 'e'], by simp [renderPad], by decide⟩
  | pynone => exact ⟨'N', ['o', 'n', 'e'], by simp [renderPad], by decide⟩
  | str s => exact ⟨'\'', s ++ ['\''], by simp [renderPad], by decide⟩
  | list xs =>
      cases xs with
      | nil => exact ⟨'[', [']'], by simp [renderPad], by decide⟩
      | cons x xs =>
          exact ⟨'[', renderPad pad (d + 1) x ++ renderItems pad (d + 1) xs,
            by simp [renderPad], by decide⟩
  | dict kvs =>
      cases kvs with
      | nil => exact ⟨'{', ['}'], by simp [renderPad], by decide⟩
      | cons kv r =>
          obtain ⟨k, v⟩ := kv
          exact ⟨'{', renderPad pad (d + 1) k ++ ':' :: ' ' :: renderPad pad (d + 1) v
            ++ renderPairs pad (d + 1) r, by simp [renderPad], by decide⟩

theorem renderItems_head (pad : Nat → List Char) (d : Nat) (xs : List PyVal) :
    ∃ cs, (renderItems pad d xs = ']' :: cs ∨ renderItems pad d xs = ',' :: cs) := by
  cases xs with
  | nil => exact ⟨[], Or.inl (by simp [renderItems])⟩
  | cons y ys =>
      exact ⟨pad d ++ renderPad pad d y ++ renderItems pad d ys,
        Or.inr (by simp [renderItems])⟩

theorem renderPairs_head (pad : Nat → List Char) (d : Nat)
    (kvs : List (PyVal × PyVal)) :
    ∃ cs, (renderPairs pad d kvs = '}' :: cs ∨ renderPairs pad d kvs = ',' :: cs) := by
  cases kvs with
  | nil => exact ⟨[], Or.inl (by simp [renderPairs])⟩
  | cons kv r =>
      obtain ⟨k, v⟩ := kv
      exact ⟨pad d ++ renderPad pad d k ++ ':' :: ' ' :: renderPad pad d v
        ++ renderPairs pad d r, Or.inr (by simp [renderPairs])⟩

theorem headND_renderItems (pad : Nat → List Char) (d : Nat) (xs : List PyVal)
    (rest : List Char) : headND (renderItems pad d xs ++ rest) = true := by
  obtain ⟨cs, h | h⟩ := renderItems_head pad d xs <;> rw [h, List.cons_append] <;> rfl

theorem headND_renderPairs (pad : Nat → List Char) (d : Nat)
    (kvs : List (PyVal × PyVal)) (rest : List Char) :
    headND (renderPairs pad d kvs ++ rest) = true := by
  obtain ⟨cs, h | h⟩ := renderPairs_head pad d kvs <;> rw [h, List.cons_append] <;> rfl

theorem parseVal_leading_ws (fuel : Nat) (w cs : List Char)
    (h : ∀ c ∈ w, isWsChar c = true) :
    parseVal fuel (w ++ cs) = parseVal fuel cs := by
  cases fuel with
  | zero => rfl
  | succ f =>
      simp only [parseVal]
      rw [skipWs_ws_append w cs h]

theorem szItems_pos (xs : List PyVal) : 1 ≤ szItems xs := by
  cases xs <;> simp [szItems] <;> omega

theorem szPairs_pos (kvs : List (PyVal × PyVal)) : 1 ≤ szPairs kvs := by
  cases kvs with
  | nil => simp [szPairs]
  | cons kv r =>
      obtain ⟨k, v⟩ := kv
      simp [szPairs]
      omega

theorem parse_render_complete : ∀ fuel : Nat,
    (∀ (v : PyVal) (pad : Nat → List Char) (d : Nat) (rest : List Char),
      safeV v = true → PadOk pad → szV v ≤ fuel → headND rest = true →
      parseVal fuel (renderPad pad d v ++ rest) = some (v, rest)) ∧
    (∀ (xs : List PyVal) (pad : Nat → List Char) (d : Nat) (rest : List Char),
      safeItems xs = true → PadOk pad → szItems xs ≤ fuel → headND rest = true →
      parseItems fuel (renderItems pad d xs ++ rest) = some (xs, rest)) ∧
    (∀ (kvs : List (PyVal × PyVal)) (pad : Nat → List Char) (d : Nat) (rest : List Char),
      safePairs kvs = true → PadOk pad → szPairs kvs ≤ fuel → headND rest = true →
      parsePairs fuel (renderPairs pad d kvs ++ rest) = some (kvs, rest)) := by
  intro fuel
  induction fuel using Nat.strong_induction_on with
  | _ fuel ih =>
  refine ⟨?_, ?_, ?_⟩
  · -- values
    intro v pad d rest hsafe hpad hsz hrest
    obtain ⟨f, rfl⟩ : ∃ f, fuel = f + 1 := by
      cases fuel with
      | zero => exact absurd hsz (by have := szV_pos v; omega)
      | succ f => exact ⟨f, rfl⟩
    obtain ⟨ihP, ihQ, ihR⟩ := ih f (Nat.lt_succ_self f)
    cases v with
    | int n =>
        obtain ⟨c, cs, hc⟩ : ∃ c cs, natDigits n.natAbs = c :: cs := by
          cases hnd : natDigits n.natAbs with
          | nil => exact absurd hnd (natDigits_ne_nil _)
          | cons a as => exact ⟨a, as, rfl⟩
        have hdg : c.isDigit = true := natDigits_all_digit _ c (by rw [hc]; simp)
        have hrd : readDigits (natDigits n.natAbs ++ rest) 0 = (n.natAbs, rest) := by
          rw [readDigits_natDigits, readDigits_stop rest _ hrest]
          simp
        by_cases hn : n < 0
        · simp only [renderPad, intRepr, if_pos hn, List.cons_append, parseVal,
            skipWs_not_ws '-' _ (by decide)]
          simp only [if_true]
          rw [hc, List.cons_append]
          simp only [hdg, if_true, ← List.cons_append, ← hc, hrd]
          have hcast : -((n.natAbs : Int)) = n := by omega
          rw [hcast]
          rw [if_neg (by decide : ¬(('-' : Char) = '\''))]
          rw [if_neg (by decide : ¬(('-' : Char) = '['))]
          rw [if_neg (by decide : ¬(('-' : Char) = '{'))]
        · have h1 : ¬(c = '\'') := isDigit_ne_of c _ hdg (by decide)
          have h2 : ¬(c = '[') := isDigit_ne_of c _ hdg (by decide)
          have h3 : ¬(c = '{') := isDigit_ne_of c _ hdg (by decide)
          have h4 : ¬(c = '-') := isDigit_ne_of c _ hdg (by decide)
          have hws : isWsChar c = false := isDigit_not_ws c hdg
          simp only [renderPad, intRepr, if_neg hn, hc, List.cons_append, parseVal,
            skipWs_not_ws c _ hws]
          rw [if_neg h1, if_neg h2, if_neg h3, if_neg h4, if_pos hdg]
          simp only [← List.cons_append, ← hc, hrd]
          have hcast : ((n.natAbs : Int)) = n := by omega
          rw [hcast]
    | bool b =>
        cases b
        · simp only [renderPad, List.cons_append, parseVal,
            skipWs_not_ws 'F' _ (by decide)]
          simp [stripTok, show ('F' : Char) ≠ 'T' from by decide]
        · simp only [renderPad, List.cons_append, parseVal,
            skipWs_not_ws 'T' _ (by decide)]
          simp [stripTok]
    | pynone =>
        simp only [renderPad, List.cons_append, parseVal,
          skipWs_not_ws 'N' _ (by decide)]
        simp [stripTok, show ('N' : Char) ≠ 'T' from by decide,
          show ('N' : Char) ≠ 'F' from by decide]
    | str s =>
        have hq : ∀ x ∈ s, ¬(x = '\'') := by
          intro x hx
          have hall : safeChar x = true := by
            simp only [safeV] at hsafe
            exact List.all_eq_true.mp hsafe x hx
          simp [safeChar] at hall
          exact hall.2.1
        simp only [renderPad, List.cons_append, parseVal,
          skipWs_not_ws '\'' _ (by decide)]
        simp only [if_true]
        rw [List.append_assoc, List.singleton_append]
        rw [readStr_closes s rest hq]
        rfl
    | list xs =>
        cases xs with
        | nil =>
            simp only [renderPad, List.cons_append, parseVal,
              skipWs_not_ws '[' _ (by decide)]
            simp only [if_true]
            rw [skipWs_not_ws ']' _ (by decide)]
            simp
        | cons x xs =>
            have hsafe' : safeV x = true ∧ safeItems xs = true := by
              simp only [safeV, safeItems, Bool.and_eq_true] at hsafe
              exact hsafe
            have hsz' : szV x ≤ f ∧ szItems xs ≤ f := by
              simp only [szV, szItems] at hsz
              omega
            obtain ⟨c1, A1, hA⟩ := renderPad_starter pad (d + 1) x
            have hf1 := starter_facts c1 hA.2
            have h1 := ihP x pad (d + 1) (renderItems pad (d + 1) xs ++ rest)
              hsafe'.1 hpad hsz'.1 (headND_renderItems pad (d + 1) xs rest)
            have h2 := ihQ xs pad (d + 1) rest hsafe'.2 hpad hsz'.2 hrest
            simp only [renderPad, List.cons_append, List.append_assoc, parseVal,
              skipWs_not_ws '[' _ (by decide)]
            simp only [if_true]
            rw [hA.1, List.cons_append,
              skipWs_not_ws c1 (A1 ++ (renderItems pad (d + 1) xs ++ rest)) hf1.1]
            rw [if_neg (by decide : ¬(('[' : Char) = '\''))]
            simp only [if_neg hf1.2.1]
            rw [← List.cons_append, ← hA.1, h1]
            simp only [h2]
    | dict kvs =>
        cases kvs with
        | nil =>
            simp only [renderPad, List.cons_append, parseVal,
              skipWs_not_ws '{' _ (by decide)]
            simp only [if_true]
            rw [skipWs_not_ws '}' _ (by decide)]
            simp
        | cons kv r =>
            obtain ⟨k, v⟩ := kv
            have hsafe' : safeV k = true ∧ safeV v = true ∧ safePairs r = true := by
              simp only [safeV, safePairs, Bool.and_eq_true] at hsafe
              exact ⟨hsafe.1.1, hsafe.1.2, hsafe.2⟩
            have hsz' : szV k ≤ f ∧ szV v ≤ f ∧ szPairs r ≤ f := by
              simp only [szV, szPairs] at hsz
              omega
            obtain ⟨c1, A1, hA⟩ := renderPad_starter pad (d + 1) k
            have hf1 := starter_facts c1 hA.2
            have h1 := ihP k pad (d + 1)
              (':' :: (' ' :: (renderPad pad (d + 1) v ++ (renderPairs pad (d + 1) r ++ rest))))
              hsafe'.1 hpad hsz'.1 (by rfl)
            have h2 := ihP v pad (d + 1) (renderPairs pad (d + 1) r ++ rest)
              hsafe'.2.1 hpad hsz'.2.1 (headND_renderPairs pad (d + 1) r rest)
            have h3 := ihR r pad (d + 1) rest hsafe'.2.2 hpad hsz'.2.2 hrest
            simp only [renderPad, List.cons_append, List.append_assoc, parseVal,
              skipWs_not_ws '{' _ (by decide)]
            simp only [if_true]
            rw [hA.1, List.cons_append,
              skipWs_not_ws c1 _ hf1.1]
            rw [if_neg (by decide : ¬(('{' : Char) = '\''))]
            rw [if_neg (by decide : ¬(('{' : Char) = '['))]
            simp only [if_neg hf1.2.2.1]
            rw [← List.cons_append, ← hA.1]
            rw [h1]
            simp only []
            rw [skipWs_not_ws ':' _ (by decide)]
            first
            | rw [if_pos (rfl : (':' : Char) = ':')]
            | simp only [if_true]
            rw [show (' ' :: (renderPad pad (d + 1) v ++ (renderPairs pad (d + 1) r ++ rest)))
              = [' '] ++ (renderPad pad (d + 1) v ++ (renderPairs pad (d + 1) r ++ rest))
              from rfl]
            rw [parseVal_leading_ws f [' '] _ (by intro c hc; simp at hc; subst hc; rfl)]
            rw [h2]
            simp only [h3]
  · -- list continuations
    intro xs pad d rest hsafe hpad hsz hrest
    obtain ⟨f, rfl⟩ : ∃ f, fuel = f + 1 := by
      cases fuel with
      | zero => exact absurd hsz (by have := szItems_pos xs; omega)
      | succ f => exact ⟨f, rfl⟩
    obtain ⟨ihP, ihQ, ihR⟩ := ih f (Nat.lt_succ_self f)
    cases xs with
    | nil =>
        simp only [renderItems, List.cons_append, parseItems,
          skipWs_not_ws ']' _ (by decide)]
        simp
    | cons y ys =>
        have hsafe' : safeV y = true ∧ safeItems ys = true := by
          simp only [safeItems, Bool.and_eq_true] at hsafe
          exact hsafe
        have hsz' : szV y ≤ f ∧ szItems ys ≤ f := by
          simp only [szItems] at hsz
          omega
        have h1 := ihP y pad d (renderItems pad d ys ++ rest)
          hsafe'.1 hpad hsz'.1 (headND_renderItems pad d ys rest)
        have h2 := ihQ ys pad d rest hsafe'.2 hpad hsz'.2 hrest
        simp only [renderItems, List.cons_append, List.append_assoc, parseItems,
          skipWs_not_ws ',' _ (by decide)]
        simp only [if_true]
        rw [parseVal_leading_ws f (pad d) _ (hpad d)]
        rw [h1]
        simp only [h2]
        rw [if_neg (by decide : ¬((',' : Char) = ']'))]
  · -- dict continuations
    intro kvs pad d rest hsafe hpad hsz hrest
    obtain ⟨f, rfl⟩ : ∃ f, fuel = f + 1 := by
      cases fuel with
      | zero => exact absurd hsz (by have := szPairs_pos kvs; omega)
      | succ f => exact ⟨f, rfl⟩
    obtain ⟨ihP, ihQ, ihR⟩ := ih f (Nat.lt_succ_self f)
    cases kvs with
    | nil =>
        simp only [renderPairs, List.cons_append, parsePairs,
          skipWs_not_ws '}' _ (by decide)]
        simp
    | cons kv r =>
        obtain ⟨k, v⟩ := kv
        have hsafe' : safeV k = true ∧ safeV v = true ∧ safePairs r = true := by
          simp only [safePairs, Bool.and_eq_true] at hsafe
          exact ⟨hsafe.1.1, hsafe.1.2, hsafe.2⟩
        have hsz' : szV k ≤ f ∧ szV v ≤ f ∧ szPairs r ≤ f := by
          simp only [szPairs] at hsz
          omega
        have h1 := ihP k pad d
          (':' :: (' ' :: (renderPad pad d v ++ (renderPairs pad d r ++ rest))))
          hsafe'.1 hpad hsz'.1 (by rfl)
        have h2 := ihP v pad d (renderPairs pad d r ++ rest)
          hsafe'.2.1 hpad hsz'.2.1 (headND_renderPairs pad d r rest)
        have h3 := ihR r pad d rest hsafe'.2.2 hpad hsz'.2.2 hrest
        simp only [renderPairs, List.cons_append, List.append_assoc, parsePairs,
          skipWs_not_ws ',' _ (by decide)]
        simp only [if_true]
        rw [parseVal_leading_ws f (pad d) _ (hpad d)]
        rw [h1]
        simp only []
        rw [skipWs_not_ws ':' _ (by decide)]
        first
        | rw [if_pos (rfl : (':' : Char) = ':')]
        | simp only [if_true]
        rw [show (' ' :: (renderPad pad d v ++ (renderPairs pad d r ++ rest)))
          = [' '] ++ (renderPad pad d v ++ (renderPairs pad d r ++ rest)) from rfl]
        rw [parseVal_leading_ws f [' '] _ (by intro c hc; simp at hc; subst hc; rfl)]
        rw [h2]
        simp only [h3]
        rw [if_neg (by decide : ¬((',' : Char) = '}'))]

theorem intRepr_ne_nil (n : Int) : intRepr n ≠ [] := by
  unfold intRepr
  by_cases h : n < 0
  · simp [h]
  · simp [h, natDigits_ne_nil]

mutual
/-- The parser-fuel measure of a value is dominated by twice the length of
its rendering (each character accounts for at most two units of fuel). -/
theorem szV_le_renderLen (pad : Nat → List Char) (d : Nat) :
    (v : PyVal) → szV v + 1 ≤ 2 * (renderPad pad d v).length
  | .int n => by
      have h1 : 1 ≤ (intRepr n).length :=
        List.length_pos.mpr (intRepr_ne_nil n)
      simp only [szV, renderPad]
      omega
  | .bool true => by simp [szV, renderPad]
  | .bool false => by simp [szV, renderPad]
  | .pynone => by simp [szV, renderPad]
  | .str s => by
      simp only [szV, renderPad, List.length_cons]
      omega
  | .list xs => by
      cases xs with
      | nil => simp [szV, szItems, renderPad]
      | cons x tl =>
          have h2 := szV_le_renderLen pad (d + 1) x
          have h3 := szItems_le_renderLen pad (d + 1) tl
          simp only [szV, szItems, renderPad, List.length_cons, List.length_append]
          omega
  | .dict kvs => by
      cases kvs with
      | nil => simp [szV, szPairs, renderPad]
      | cons kv r =>
          obtain ⟨k, v⟩ := kv
          have h1 := szV_le_renderLen pad (d + 1) k
          have h2 := szV_le_renderLen pad (d + 1) v
          have h3 := szPairs_le_renderLen pad (d + 1) r
          simp only [szV, szPairs, renderPad, List.length_cons, List.length_append]
          omega
/-- Fuel measure bound for list continuations. -/
theorem szItems_le_renderLen (pad : Nat → List Char) (d : Nat) :
    (xs : List PyVal) → szItems xs + 1 ≤ 2 * (renderItems pad d xs).length
  | [] => by simp [szItems, renderItems]
  | y :: ys => by
      have h1 := szV_le_renderLen pad d y
      have h2 := szItems_le_renderLen pad d ys
      simp only [szItems, renderItems, List.length_cons, List.length_append]
      omega
/-- Fuel measure bound for dict continuations. -/
theorem szPairs_le_renderLen (pad : Nat → List Char) (d : Nat) :
    (kvs : List (PyVal × PyVal)) → szPairs kvs + 1 ≤ 2 * (renderPairs pad d kvs).length
  | [] => by simp [szPairs, renderPairs]
  | (k, v) :: r => by
      have h1 := szV_le_renderLen pad d k
      have h2 := szV_le_renderLen pad d v
      have h3 := szPairs_le_renderLen pad d r
      simp only [szPairs, renderPairs, List.length_cons, List.length_append]
      omega
end

theorem literalEval_renderPad (v : PyVal) (pad : Nat → List Char)
    (hsafe : safeV v = true) (hpad : PadOk pad) :
    literalEval (renderPad pad 0 v ++ ['\n']) = some v := by
  unfold literalEval
  have hfuel : szV v ≤ 2 * (renderPad pad 0 v ++ ['\n']).length + 1 := by
    have h := szV_le_renderLen pad 0 v
    simp only [List.length_append, List.length_cons, List.length_nil]
    omega
  have h := (parse_render_complete (2 * (renderPad pad 0 v ++ ['\n']).length + 1)).1
    v pad 0 ['\n'] hsafe hpad hfuel (by rfl)
  rw [h]
  rfl

theorem natDigits_ascii (n : Nat) : ∀ c ∈ natDigits n, c.toNat < 128 := by
  intro c hc
  have hd := natDigits_all_digit n c hc
  have h9 : c ≤ '9' := by
    simp [Char.isDigit] at hd
    exact hd.2
  calc c.toNat ≤ ('9' : Char).toNat := h9
    _ < 128 := by decide

mutual
/-- Rendering a safe value produces only ASCII characters (given an ASCII
whitespace layout), so the UTF-8 encode/decode pair over the filesystem is
the identity on it. -/
theorem renderPad_ascii (pad : Nat → List Char) (d : Nat) :
    (v : PyVal) → safeV v = true → PadAscii pad →
      ∀ c ∈ renderPad pad d v, c.toNat < 128
  | .int n, _, _ => by
      intro c hc
      simp only [renderPad, intRepr] at hc
      by_cases h : n < 0
      · rw [if_pos h] at hc
        rcases List.mem_cons.mp hc with rfl | hc
        · decide
        · exact natDigits_ascii _ c hc
      · rw [if_neg h] at hc
        exact natDigits_ascii _ c hc
  | .bool true, _, _ => by
      intro c hc
      simp only [renderPad] at hc
      fin_cases hc <;> decide
  | .bool false, _, _ => by
      intro c hc
      simp only [renderPad] at hc
      fin_cases hc <;> decide
  | .pynone, _, _ => by
      intro c hc
      simp only [renderPad] at hc
      fin_cases hc <;> decide
  | .str s, hsafe, _ => by
      intro c hc
      simp only [renderPad] at hc
      rcases List.mem_cons.mp hc with rfl | hc
      · decide
      rcases List.mem_append.mp hc with hc | hc
      · have hall : safeChar c = true := by
          simp only [safeV] at hsafe
          exact List.all_eq_true.mp hsafe c hc
        simp [safeChar] at hall
        omega
      · rcases List.mem_singleton.mp hc with rfl
        decide
  | .list xs, hsafe, hascii => by
      intro c hc
      cases xs with
      | nil =>
          simp only [renderPad] at hc
          fin_cases hc <;> decide
      | cons x tl =>
          have hs : safeV x = true ∧ safeItems tl = true := by
            simp only [safeV, safeItems, Bool.and_eq_true] at hsafe
            exact hsafe
          simp only [renderPad] at hc
          rcases List.mem_cons.mp hc with rfl | hc
          · decide
          rcases List.mem_append.mp hc with hc | hc
          · exact renderPad_ascii pad (d + 1) x hs.1 hascii c hc
          · exact renderItems_ascii pad (d + 1) tl hs.2 hascii c hc
  | .dict kvs, hsafe, hascii => by
      intro c hc
      cases kvs with
      | nil =>
          simp only [renderPad] at hc
          fin_cases hc <;> decide
      | cons kv r =>
          obtain ⟨k, v⟩ := kv
          have hs : safeV k = true ∧ safeV v = true ∧ safePairs r = true := by
            simp only [safeV, safePairs, Bool.and_eq_true] at hsafe
            exact ⟨hsafe.1.1, hsafe.1.2, hsafe.2⟩
          simp only [renderPad] at hc
          rcases List.mem_cons.mp hc with rfl | hc
          · decide
          rcases List.mem_append.mp hc with hc | hc
          · rcases List.mem_append.mp hc with hc | hc
            · exact renderPad_ascii pad (d + 1) k hs.1 hascii c hc
            rcases List.mem_cons.mp hc with rfl | hc
            · decide
            rcases List.mem_cons.mp hc with rfl | hc
            · decide
            · exact renderPad_ascii pad (d + 1) v hs.2.1 hascii c hc
          · exact renderPairs_ascii pad (d + 1) r hs.2.2 hascii c hc
/-- ASCII-ness of list continuations. -/
theorem renderItems_ascii (pad : Nat → List Char) (d : Nat) :
    (xs : List PyVal) → safeItems xs = true → PadAscii pad →
      ∀ c ∈ renderItems pad d xs, c.toNat < 128
  | [], _, _ => by
      intro c hc
      simp only [renderItems] at hc
      fin_cases hc
      decide
  | y :: ys, hsafe, hascii => by
      intro c hc
      have hs : safeV y = true ∧ safeItems ys = true := by
        simp only [safeItems, Bool.and_eq_true] at hsafe
        exact hsafe
      simp only [renderItems] at hc
      rcases List.mem_cons.mp hc with rfl | hc
      · decide
      rcases List.mem_append.mp hc with hc | hc
      · rcases List.mem_append.mp hc with hc | hc
        · exact hascii d c hc
        · exact renderPad_ascii pad d y hs.1 hascii c hc
      · exact renderItems_ascii pad d ys hs.2 hascii c hc
/-- ASCII-ness of dict continuations. -/
theorem renderPairs_ascii (pad : Nat → List Char) (d : Nat) :
    (kvs : List (PyVal × PyVal)) → safePairs kvs = true → PadAscii pad →
      ∀ c ∈ renderPairs pad d kvs, c.toNat < 128
  | [], _, _ => by
      intro c hc
      simp only [renderPairs] at hc
      fin_cases hc
      decide
  | (k, v) :: r, hsafe, hascii => by
      intro c hc
      have hs : safeV k = true ∧ safeV v = true ∧ safePairs r = true := by
        simp only [safePairs, Bool.and_eq_true] at hsafe
        exact ⟨hsafe.1.1, hsafe.1.2, hsafe.2⟩
      simp only [renderPairs] at hc
      rcases List.mem_cons.mp hc with rfl | hc
      · decide
      rcases List.mem_append.mp hc with hc | hc
      · rcases List.mem_append.mp hc with hc | hc
        · rcases List.mem_append.mp hc with hc | hc
          · exact hascii d c hc
          · exact renderPad_ascii pad d k hs.1 hascii c hc
        · rcases List.mem_cons.mp hc with rfl | hc
          · decide
          rcases List.mem_cons.mp hc with rfl | hc
          · decide
          · exact renderPad_ascii pad d v hs.2.1 hascii c hc
      · exact renderPairs_ascii pad d r hs.2.2 hascii c hc
end

theorem aquire_lock_ok_of_free (t : Nat) (path : String) (reg : LockDict) (env : Env)
    (hfree : getA env.osLock path = none) :
    (aquire_lock t path true none reg env).result = .ok () := by
  unfold aquire_lock
  by_cases h : have_lock reg path
  · simp [h]
  · simp [h, hfree]

theorem save_ok_content (t : Nat) (path : String) (content : Bytes) (mode : Nat)
    (reg : LockDict) (env : Env)
    (hacq : (aquire_lock t path true none reg env).result = .ok ()) :
    (_save_data_to_file t path content mode none reg env).result = .ok () ∧
    getA (_save_data_to_file t path content mode none reg env).env.files path
      = some content := by
  unfold _save_data_to_file
  simp [hacq, release_lock_files, ne_tmpName, tmpName_ne]

theorem round_trip_general (v : PyVal) (pad : Nat → List Char) (t : Nat) (path : String)
    (default : PyVal) (reg : LockDict) (env : Env)
    (hsafe : safeV v = true) (hpad : PadOk pad) (hascii : PadAscii pad)
    (hacq : (aquire_lock t path true none reg env).result = .ok ()) :
    (_save_data_to_file t path (encodeUtf8 (renderPad pad 0 v ++ ['\n'])) 0o660
        none reg env).result = .ok () ∧
    (load_object_from_file t path default false none none
        (_save_data_to_file t path (encodeUtf8 (renderPad pad 0 v ++ ['\n'])) 0o660
          none reg env).reg
        (_save_data_to_file t path (encodeUtf8 (renderPad pad 0 v ++ ['\n'])) 0o660
          none reg env).env).result = .ok v := by
  obtain ⟨hok, hfile⟩ := save_ok_content t path
    (encodeUtf8 (renderPad pad 0 v ++ ['\n'])) 0o660 reg env hacq
  refine ⟨hok, ?_⟩
  have hdec : decodeUtf8 (encodeUtf8 (renderPad pad 0 v ++ ['\n'])) =
      some (renderPad pad 0 v ++ ['\n']) := by
    apply decodeUtf8_encodeUtf8_ascii
    intro c hc
    rcases List.mem_append.mp hc with hc | hc
    · exact renderPad_ascii pad 0 v hsafe hascii c hc
    · rcases List.mem_singleton.mp hc with rfl
      decide
  have hne : renderPad pad 0 v ++ ['\n'] ≠ [] := by simp
  have hlit := literalEval_renderPad v pad hsafe hpad
  unfold load_object_from_file _load_bytes_from_file loadBody
  simp only [Bool.false_eq_true, if_false, hfile, hdec, hne, hlit]

/-- C7: save/load round trip for structured values.  For every value in the
modelled literal fragment (safe strings), saving with
`save_object_to_file(path, v, pretty)` — which renders with `repr` for
`pretty=false` and with the multi-line `pprint.pformat` layout for
`pretty=true` — and then loading with `load_object_from_file(path, default)`
returns exactly `v`. -/
theorem claim_C7_round_trip (v : PyVal) (pretty : Bool) (t : Nat) (path : String)
    (default : PyVal) (reg : LockDict) (env : Env)
    (hsafe : safeV v = true)
    (hfree : getA env.osLock path = none) :
    (save_object_to_file t path v pretty none reg env).result = .ok () ∧
    (load_object_from_file t path default false none none
        (save_object_to_file t path v pretty none reg env).reg
        (save_object_to_file t path v pretty none reg env).env).result = .ok v := by
  have hacq := aquire_lock_ok_of_free t path reg env hfree
  cases pretty with
  | false =>
      exact round_trip_general v (fun _ => [' ']) t path default reg env hsafe
        (by intro d c hc; rcases List.mem_singleton.mp hc with rfl; rfl)
        (by intro d c hc; rcases List.mem_singleton.mp hc with rfl; decide) hacq
  | true =>
      exact round_trip_general v (fun d => '\n' :: List.replicate d ' ') t path default
        reg env hsafe
        (by
          intro d c hc
          rcases List.mem_cons.mp hc with rfl | hc
          · rfl
          · rcases (List.mem_replicate.mp hc).2 with rfl
            rfl)
        (by
          intro d c hc
          rcases List.mem_cons.mp hc with rfl | hc
          · decide
          · rcases (List.mem_replicate.mp hc).2 with rfl
            decide) hacq

/-- Witness for C7 on the spec's scenario: saving `{"a": 1, "b": [1,2,3]}`
pretty-printed to a fresh path and loading it back returns the same value. -/
theorem claim_C7_round_trip_witness :
    (save_object_to_file 1 "p" vScn true none [] ⟨[], [], [], 3, 0⟩).result = .ok () ∧
    (load_object_from_file 1 "p" .pynone false none none
        (save_object_to_file 1 "p" vScn true none [] ⟨[], [], [], 3, 0⟩).reg
        (save_object_to_file 1 "p" vScn true none [] ⟨[], [], [], 3, 0⟩).env).result
      = .ok vScn :=
  claim_C7_round_trip vScn true 1 "p" .pynone [] ⟨[], [], [], 3, 0⟩ (by decide) rfl
